import Mathlib

/-!
Handler registration and dispatch (`dolores/handler.hpp`)

A shallow embedding of the handler registry of `dolores/handler.hpp`.

Modelling decisions:

* `std::string` is a Lean `String`; `std::map`'s key order is the
  lexicographic order of the character sequences (`String.data`), which is
  the byte order of the UTF-8 encoding.
* `std::map<std::string, std::shared_ptr<Handler<E>>>` is a list of
  key/value pairs kept in strictly ascending key order; the value is an
  `Option`, `none` standing for a null `shared_ptr`.
* `handlers<E>()` is a function template, so its function-local static maps
  exist once per specialization, that is per static event type `E`
  (`EventType`).  The maps of the specializations at the three base event
  classes are the three fields of the explicit state `_HandlerMapWrapper`.
  `add_handler<E>` is well-typed at the three base classes only (elsewhere it
  would assign a `shared_ptr<Handler<E>>` to a `shared_ptr` of a handler of the
  base class), and nothing else in the file writes a map, so the map of a
  specialization at a derived class is empty in every state and is not stored.
* An event of static type `E` is seen by guards and sessions through its base
  class, so it is a value of `Ev c` for the category `c` of `E`.
* A callback (`std::function<void(Session<E>&)>`) is a value of an arbitrary
  type `F`; a condition is a Boolean function of the event.  What a dispatch
  does is recorded as a log of effects (guard evaluations and callback
  invocations), each labelled with the key of the entry that caused it.
  Guards and callbacks are assumed to return normally and not to touch the
  registries.  What a callback does to the session it is passed by reference
  is a parameter of the loop with the callbacks executed (`run_entries_with`).
* Dereferencing a null handler pointer has no defined behaviour; the model
  stops the dispatch there and raises the `fault` flag of the outcome.
-/

namespace dolores

/-- The three event categories (`cq::MessageEvent`, `cq::NoticeEvent`,
`cq::RequestEvent`). -/
inductive Category where
  | message
  | notice
  | request
deriving DecidableEq, Repr

/-- The static event type `E` at which a template of the file is instantiated:
the category whose base class `E` is or derives from (what the `is_base_of_v`
tests see), and the name of the derived class, `none` when `E` is the base
class itself. -/
structure EventType where
  category : Category
  derived : Option String
deriving DecidableEq, Repr

/-- The base event class of a category (`cq::MessageEvent`, `cq::NoticeEvent`,
`cq::RequestEvent`) as a static event type. -/
abbrev EventType.base (c : Category) : EventType := ⟨c, none⟩

namespace string

/-- Modelled from the spec: `string::startswith` of `string.hpp`, which is not
part of the sources at hand; "the name starts with the reserved prefix". -/
def startswith (s pre : String) : Bool :=
  pre.data.isPrefixOf s.data

end string

/-- Modelled from the spec: `Session<E>` of `session.hpp`, "a short-lived
wrapper around one incoming event", built from the event alone. -/
structure Session (E : Type) where
  event : E
deriving DecidableEq, Repr

/-- What a handler does that can be observed from outside: the evaluation of
its condition on an event, and the invocation of its callback on a session. -/
inductive Effect (E F : Type) where
  | guard (event : E)
  | call (impl : F) (session : Session E)
deriving DecidableEq, Repr

/-- The class `Handler<E>`: a callback and a condition, both nullable. -/
structure Handler (E F : Type) where
  _impl : Option F
  _condition : Option (E → Bool)

namespace Handler

variable {E F : Type}

/-- The method `Handler::check_condition`: the result, and the effects made. -/
def check_condition (h : Handler E F) (event : E) : Bool × List (Effect E F) :=
  match h._condition with
  | none => (true, [])
  | some c => (c event, [Effect.guard event])

/-- The method `Handler::run`: the effects made. -/
def run (h : Handler E F) (session : Session E) : List (Effect E F) :=
  match h._impl with
  | none => []
  | some f => [Effect.call f session]

end Handler

/-- One key/value pair of a `HandlerMap`. -/
abbrev Entry (E F : Type) := String × Option (Handler E F)

/-- The relation that orders the entries of a `std::map`. -/
def keyLt {E F : Type} (a b : Entry E F) : Prop := a.1.data < b.1.data

/-- The type `HandlerMap<E>`: `std::map<std::string, std::shared_ptr<Handler<E>>>`. -/
structure HandlerMap (E F : Type) where
  entries : List (Entry E F)
  sorted : entries.Pairwise keyLt

/-- Insert-or-assign on a key-sorted list of entries. -/
def assignEntries {E F : Type} (name : String) (handler : Option (Handler E F)) :
    List (Entry E F) → List (Entry E F)
  | [] => [(name, handler)]
  | (k, v) :: rest =>
    if name.data < k.data then (name, handler) :: (k, v) :: rest
    else if name = k then (name, handler) :: rest
    else (k, v) :: assignEntries name handler rest

/-- Lookup of a key in a list of entries. -/
def findEntries {E F : Type} (name : String) :
    List (Entry E F) → Option (Option (Handler E F))
  | [] => none
  | (k, v) :: rest => if name = k then some v else findEntries name rest

theorem mem_assignEntries {E F : Type} (name : String) (handler : Option (Handler E F))
    (l : List (Entry E F)) (x : Entry E F) (hx : x ∈ assignEntries name handler l) :
    x = (name, handler) ∨ x ∈ l := by
  induction l with
  | nil => simpa [assignEntries] using hx
  | cons p rest ih =>
    obtain ⟨k, v⟩ := p
    simp only [assignEntries] at hx
    split_ifs at hx with h1 h2
    · simpa using hx
    · rcases List.mem_cons.1 hx with h | h
      · exact Or.inl h
      · exact Or.inr (List.mem_cons_of_mem _ h)
    · rcases List.mem_cons.1 hx with h | h
      · exact Or.inr (h ▸ List.mem_cons_self _ _)
      · rcases ih h with h | h
        · exact Or.inl h
        · exact Or.inr (List.mem_cons_of_mem _ h)

theorem assignEntries_sorted {E F : Type} (name : String) (handler : Option (Handler E F))
    (l : List (Entry E F)) (hl : l.Pairwise keyLt) :
    (assignEntries name handler l).Pairwise keyLt := by
  induction l with
  | nil => simp [assignEntries]
  | cons p rest ih =>
    obtain ⟨k, v⟩ := p
    have hhead := (List.pairwise_cons.1 hl).1
    have htail := (List.pairwise_cons.1 hl).2
    simp only [assignEntries]
    split_ifs with h1 h2
    · refine List.pairwise_cons.2 ⟨?_, hl⟩
      intro x hx
      rcases List.mem_cons.1 hx with h | h
      · subst h; exact h1
      · exact lt_trans h1 (hhead x h)
    · subst h2
      exact List.pairwise_cons.2 ⟨fun x hx => hhead x hx, htail⟩
    · refine List.pairwise_cons.2 ⟨?_, ih htail⟩
      intro x hx
      rcases mem_assignEntries name handler rest x hx with h | h
      · subst h
        rcases lt_trichotomy name.data k.data with h3 | h3 | h3
        · exact absurd h3 h1
        · exact absurd (String.ext h3) h2
        · exact h3
      · exact hhead x h

namespace HandlerMap

variable {E F : Type}

/-- A default-constructed (empty) map. -/
def empty : HandlerMap E F := ⟨[], List.Pairwise.nil⟩

/-- The statement `handlers[name] = handler`. -/
def assign (m : HandlerMap E F) (name : String) (handler : Option (Handler E F)) :
    HandlerMap E F :=
  ⟨assignEntries name handler m.entries, assignEntries_sorted name handler m.entries m.sorted⟩

/-- The lookup `handlers.find(name)`: `none` when the key is absent. -/
def find (m : HandlerMap E F) (name : String) : Option (Option (Handler E F)) :=
  findEntries name m.entries

end HandlerMap

/-- The outcome of one dispatch: the effects made, each labelled with the key
of the entry that caused it, and whether a null handler pointer was
dereferenced (which ends the dispatch). -/
structure Outcome (E F : Type) where
  log : List (String × Effect E F)
  fault : Bool
deriving DecidableEq, Repr

/-- The loop of `run_handlers` over the entries of the map, in iteration order.
The three `if constexpr` branches of the body differ only in the static type
of the session they build, which is `Session E` here. -/
def run_entries {E F : Type} (event : E) : List (Entry E F) → Outcome E F
  | [] => ⟨[], false⟩
  | (name, handler) :: rest =>
    if string.startswith name "_" then run_entries event rest
    else
      match handler with
      | none => ⟨[], true⟩
      | some h =>
        let checked := h.check_condition event
        let ran := if checked.1 then h.run (Session.mk event) else []
        let later := run_entries event rest
        ⟨(checked.2 ++ ran).map (Prod.mk name) ++ later.log, later.fault⟩

/-- The struct `_HandlerMapWrapper`: the function-local static maps of the
specializations of `handlers<E>()` at the three base event classes, as
explicit state. -/
structure _HandlerMapWrapper (Ev : Category → Type) (F : Type) where
  message_handlers : HandlerMap (Ev Category.message) F
  notice_handlers : HandlerMap (Ev Category.notice) F
  request_handlers : HandlerMap (Ev Category.request) F

namespace _HandlerMapWrapper

variable {Ev : Category → Type} {F : Type}

/-- The state before any registration: three empty maps. -/
def init : _HandlerMapWrapper Ev F :=
  ⟨HandlerMap.empty, HandlerMap.empty, HandlerMap.empty⟩

/-- The function `_HandlerMapWrapper::handlers<E>()`: the static map of the
specialization at `E`.  At a base class it is the map that `add_handler`
fills; at a derived class it is a map of its own, which nothing fills. -/
def handlers (w : _HandlerMapWrapper Ev F) : (t : EventType) → HandlerMap (Ev t.category) F
  | ⟨Category.message, none⟩ => w.message_handlers
  | ⟨Category.notice, none⟩ => w.notice_handlers
  | ⟨Category.request, none⟩ => w.request_handlers
  | ⟨_, some _⟩ => HandlerMap.empty

/-- Writing through the reference returned by `handlers<E>()` at the base class
of a category. -/
def setHandlers (w : _HandlerMapWrapper Ev F) :
    (c : Category) → HandlerMap (Ev c) F → _HandlerMapWrapper Ev F
  | Category.message, m => { w with message_handlers := m }
  | Category.notice, m => { w with notice_handlers := m }
  | Category.request, m => { w with request_handlers := m }

end _HandlerMapWrapper

section Operations

variable {Ev : Category → Type} {F : Type}

/-- The function `add_handler<E>`, for `E` the base class of the category `c`
(it is ill-typed at any other `E`): the value returned and the state
afterwards. -/
def add_handler (c : Category) (name : String) (handler : Option (Handler (Ev c) F))
    (w : _HandlerMapWrapper Ev F) : Bool × _HandlerMapWrapper Ev F :=
  let handlers := w.handlers (EventType.base c)
  (true, w.setHandlers c (handlers.assign name handler))

/-- The function `run_handlers<E>` at the static event type `t`: the outcome and
the state afterwards (the map is only read). -/
def run_handlers (t : EventType) (event : Ev t.category) (w : _HandlerMapWrapper Ev F) :
    Outcome (Ev t.category) F × _HandlerMapWrapper Ev F :=
  let handlers := w.handlers t
  (run_entries event handlers.entries, w)

/-- The state after a sequence of dispatches, made one after the other. -/
def run_many : List (Sigma (fun t : EventType => Ev t.category)) →
    _HandlerMapWrapper Ev F → _HandlerMapWrapper Ev F
  | [], w => w
  | ⟨t, event⟩ :: rest, w => run_many rest (run_handlers t event w).2

end Operations

/-- Whether a logged effect is a callback invocation. -/
def isCall {E F : Type} : String × Effect E F → Bool
  | (_, Effect.call _ _) => true
  | (_, Effect.guard _) => false

/-- The callback invocations of a log, in the order they were made. -/
def invocations {E F : Type} (log : List (String × Effect E F)) : List (String × Effect E F) :=
  log.filter isCall

/-- The callback invocations of a log that were made for the entry `name`. -/
def callsOf {E F : Type} (name : String) (log : List (String × Effect E F)) :
    List (String × Effect E F) :=
  log.filter (fun a => isCall a && decide (a.1 = name))

/-- No entry that the loop of `run_handlers` dereferences holds a null handler
pointer: every entry has a reserved name or a handler. -/
def derefSafe {E F : Type} (entries : List (Entry E F)) : Bool :=
  entries.all (fun x => string.startswith x.1 "_" || x.2.isSome)

/-- An entry's condition is present and rejects the event. -/
def guardRejects {E F : Type} (event : E) (x : Entry E F) : Bool :=
  match x.2 with
  | none => false
  | some h =>
    match h._condition with
    | none => false
    | some c => !c event

/-- The callback of an entry, `none` when it is null (or there is no handler). -/
def callbackOf {E F : Type} (x : Entry E F) : Option F :=
  match x.2 with
  | none => none
  | some h => h._impl

/-- The reference definition of dispatch, in the words of the specification:
take the entries in ascending key order, drop those whose name starts with
`"_"`, drop those whose guard is present and rejects the event, drop those
whose callback is null, and invoke the callback of each remaining entry once,
on a session built from the event. -/
def dispatch_reference {E F : Type} (event : E) (entries : List (Entry E F)) :
    List (String × Effect E F) :=
  (((entries.filter (fun x => !string.startswith x.1 "_")).filter
      (fun x => !guardRejects event x)).filter
      (fun x => (callbackOf x).isSome)).filterMap
    (fun x => (callbackOf x).map (fun f => (x.1, Effect.call f (Session.mk event))))

/-- The invocations that the entry `x` is due in a dispatch of `event` that
reaches it. -/
def expectedCalls {E F : Type} (event : E) (x : Entry E F) : List (String × Effect E F) :=
  if string.startswith x.1 "_" then []
  else
    match x.2 with
    | none => []
    | some h =>
      if (h.check_condition event).1 then (h.run (Session.mk event)).map (Prod.mk x.1) else []

/-- The effects of the entry `(name, some h)` once the loop reaches it. -/
def entryEffects {E F : Type} (event : E) (name : String) (h : Handler E F) :
    List (String × Effect E F) :=
  ((h.check_condition event).2 ++
    (if (h.check_condition event).1 then h.run (Session.mk event) else [])).map (Prod.mk name)

/-- The state after a sequence of registrations, made one after the other. -/
def add_many {Ev : Category → Type} {F : Type} :
    List (Sigma (fun c => String × Option (Handler (Ev c) F))) →
      _HandlerMapWrapper Ev F → _HandlerMapWrapper Ev F
  | [], w => w
  | ⟨c, name, handler⟩ :: rest, w => add_many rest (add_handler c name handler w).2

/-- The guard evaluations of a log that were made for the entry `name`. -/
def guardsOf {E F : Type} (name : String) (log : List (String × Effect E F)) :
    List (String × Effect E F) :=
  log.filter (fun a => !isCall a && decide (a.1 = name))

/-- The order of two logged effects: the first is for an entry with a smaller
key, or both are for one entry, the first its guard evaluation and the second
its callback invocation. -/
def precedes {E F : Type} (a b : String × Effect E F) : Prop :=
  a.1.data < b.1.data ∨ (a.1 = b.1 ∧ isCall a = false ∧ isCall b = true)

/-- The method `Handler::run` with the callback executed.  The callback takes
the session by reference: `act f s` is the session as the callback `f` leaves
it when it is called on `s`.  The session after the call, and the effects
made. -/
def Handler.run_with {E F : Type} (act : F → Session E → Session E) (h : Handler E F)
    (session : Session E) : Session E × List (Effect E F) :=
  match h._impl with
  | none => (session, [])
  | some f => (act f session, [Effect.call f session])

/-- The loop of `run_handlers` with the callbacks executed.  The session is a
local of the block that runs the handler: it is built from the event when the
block is entered and destroyed when the block is left.  The outcome, and the
sessions destroyed, each as its handler left it. -/
def run_entries_with {E F : Type} (act : F → Session E → Session E) (event : E) :
    List (Entry E F) → Outcome E F × List (String × Session E)
  | [] => (⟨[], false⟩, [])
  | (name, handler) :: rest =>
    if string.startswith name "_" then run_entries_with act event rest
    else
      match handler with
      | none => (⟨[], true⟩, [])
      | some h =>
        let checked := h.check_condition event
        if checked.1 then
          let session := Session.mk event
          let ran := h.run_with act session
          let later := run_entries_with act event rest
          (⟨(checked.2 ++ ran.2).map (Prod.mk name) ++ later.1.log, later.1.fault⟩,
            (name, ran.1) :: later.2)
        else
          let later := run_entries_with act event rest
          (⟨checked.2.map (Prod.mk name) ++ later.1.log, later.1.fault⟩, later.2)

/-- The function `run_handlers<E>` at the static event type `t`, with the
callbacks executed. -/
def run_handlers_with {Ev : Category → Type} {F : Type} (t : EventType)
    (act : F → Session (Ev t.category) → Session (Ev t.category)) (event : Ev t.category)
    (w : _HandlerMapWrapper Ev F) :
    (Outcome (Ev t.category) F × List (String × Session (Ev t.category))) ×
      _HandlerMapWrapper Ev F :=
  let handlers := w.handlers t
  (run_entries_with act event handlers.entries, w)

section Examples

/-- An event family for the examples: an event of any category is a number. -/
abbrev ExEv : Category → Type := fun _ => Nat

/-- A handler with callback `f` and a guard that accepts every event. -/
def accepting (f : String) : Handler Nat String := ⟨some f, some (fun _ => true)⟩

/-- A handler with callback `f` and a guard that rejects every event. -/
def rejecting (f : String) : Handler Nat String := ⟨some f, some (fun _ => false)⟩

/-- A handler with callback `f` and no guard. -/
def unguarded (f : String) : Handler Nat String := ⟨some f, none⟩

/-- A handler with a null callback and a guard that accepts every event. -/
def noCallback : Handler Nat String := ⟨none, some (fun _ => true)⟩

/-- The class `cq::GroupMessageEvent`, derived from `cq::MessageEvent`, as a
static event type. -/
abbrev groupMessageEvent : EventType := ⟨Category.message, some "GroupMessageEvent"⟩

/-- The state after registering message handlers in the order given. -/
def registerAll (l : List (String × Option (Handler Nat String))) :
    _HandlerMapWrapper ExEv String :=
  l.foldl (fun w x => (add_handler Category.message x.1 x.2 w).2) _HandlerMapWrapper.init

/-- The registry of the specification's example: `"b_handler"`, `"a_handler"`
and `"_hidden"`, registered in that order, all guards accepting. -/
def exampleRegistry : _HandlerMapWrapper ExEv String :=
  registerAll [("b_handler", some (accepting "fb")), ("a_handler", some (accepting "fa")),
    ("_hidden", some (accepting "fh"))]

/-- A registry in which the entry `"a"` holds a null handler pointer. -/
def nullRegistry : _HandlerMapWrapper ExEv String :=
  registerAll [("a", none), ("b", some (unguarded "fb"))]

end Examples

/-! ## The loop of `run_handlers`, entry by entry -/

section LoopLemmas

variable {E F : Type}

theorem run_entries_reserved (event : E) (name : String) (v : Option (Handler E F))
    (rest : List (Entry E F)) (hr : string.startswith name "_" = true) :
    run_entries event ((name, v) :: rest) = run_entries event rest := by
  simp [run_entries, hr]

theorem run_entries_null (event : E) (name : String) (rest : List (Entry E F))
    (hr : string.startswith name "_" = false) :
    run_entries event ((name, none) :: rest) = ⟨[], true⟩ := by
  simp [run_entries, hr]

theorem run_entries_some (event : E) (name : String) (h : Handler E F)
    (rest : List (Entry E F)) (hr : string.startswith name "_" = false) :
    run_entries event ((name, some h) :: rest) =
      ⟨entryEffects event name h ++ (run_entries event rest).log,
        (run_entries event rest).fault⟩ := by
  simp [run_entries, hr, entryEffects]

theorem entryEffects_label (event : E) (name : String) (h : Handler E F)
    (a : String × Effect E F) (ha : a ∈ entryEffects event name h) : a.1 = name := by
  unfold entryEffects at ha
  obtain ⟨x, -, rfl⟩ := List.mem_map.1 ha
  rfl

theorem entryEffects_calls (event : E) (name : String) (h : Handler E F) :
    (entryEffects event name h).filter isCall =
      if (h.check_condition event).1 then (h.run (Session.mk event)).map (Prod.mk name)
      else [] := by
  unfold entryEffects Handler.check_condition Handler.run
  cases h._condition <;> cases h._impl <;> simp [isCall]
  all_goals split
  all_goals simp [isCall]

/-- Every logged effect is labelled with the key of a dispatchable entry. -/
theorem run_entries_label (event : E) (l : List (Entry E F)) (a : String × Effect E F)
    (ha : a ∈ (run_entries event l).log) :
    string.startswith a.1 "_" = false ∧ ∃ v, (a.1, v) ∈ l := by
  induction l with
  | nil => simp [run_entries] at ha
  | cons p rest ih =>
    obtain ⟨k, v⟩ := p
    cases hr : string.startswith k "_" with
    | true =>
      rw [run_entries_reserved event k v rest hr] at ha
      obtain ⟨h1, v', h2⟩ := ih ha
      exact ⟨h1, v', List.mem_cons_of_mem _ h2⟩
    | false =>
      cases v with
      | none => simp [run_entries_null event k rest hr] at ha
      | some h =>
        rw [run_entries_some event k h rest hr] at ha
        rcases List.mem_append.1 ha with h1 | h1
        · have hk := entryEffects_label event k h a h1
          rw [hk]
          exact ⟨hr, some h, List.mem_cons_self _ _⟩
        · obtain ⟨h2, v', h3⟩ := ih h1
          exact ⟨h2, v', List.mem_cons_of_mem _ h3⟩

/-- In a key-sorted list the effects of the tail are labelled with keys after the head's. -/
theorem run_entries_label_after (event : E) (k : String) (v : Option (Handler E F))
    (rest : List (Entry E F)) (hs : ((k, v) :: rest).Pairwise keyLt)
    (a : String × Effect E F) (ha : a ∈ (run_entries event rest).log) :
    k.data < a.1.data := by
  obtain ⟨-, v', h⟩ := run_entries_label event rest a ha
  exact (List.pairwise_cons.1 hs).1 (a.1, v') h

/-- The flag `fault` is raised exactly when a dereferenced entry holds a null pointer. -/
theorem run_entries_fault (event : E) (l : List (Entry E F)) :
    (run_entries event l).fault = !derefSafe l := by
  induction l with
  | nil => simp [run_entries, derefSafe]
  | cons p rest ih =>
    obtain ⟨k, v⟩ := p
    cases hr : string.startswith k "_" with
    | true =>
      rw [run_entries_reserved event k v rest hr, ih]
      simp [derefSafe, hr]
    | false =>
      cases v with
      | none => simp [run_entries_null event k rest hr, derefSafe, hr]
      | some h =>
        rw [run_entries_some event k h rest hr]
        simp only [ih]
        simp [derefSafe, hr]

/-- The invocations due to an entry, by the three tests of the reference definition. -/
theorem expectedCalls_eq (event : E) (x : Entry E F) :
    expectedCalls event x =
      if string.startswith x.1 "_" then []
      else if guardRejects event x then []
      else
        match callbackOf x with
        | none => []
        | some f => [(x.1, Effect.call f (Session.mk event))] := by
  obtain ⟨k, v⟩ := x
  cases hr : string.startswith k "_" with
  | true => simp [expectedCalls, hr]
  | false =>
    cases v with
    | none => simp [expectedCalls, hr, guardRejects, callbackOf]
    | some h =>
      obtain ⟨impl, cond⟩ := h
      cases impl <;> cases cond <;>
        simp [expectedCalls, hr, guardRejects, callbackOf, Handler.check_condition,
          Handler.run]
      all_goals split
      all_goals simp_all

/-- The reference definition, one entry at a time. -/
theorem dispatch_reference_cons (event : E) (x : Entry E F) (rest : List (Entry E F)) :
    dispatch_reference event (x :: rest) =
      expectedCalls event x ++ dispatch_reference event rest := by
  rw [expectedCalls_eq]
  unfold dispatch_reference
  cases hr : string.startswith x.1 "_" with
  | true => rw [List.filter_cons_of_neg (by simp [hr])]; simp
  | false =>
    rw [List.filter_cons_of_pos (by simp [hr])]
    cases hg : guardRejects event x with
    | true => rw [List.filter_cons_of_neg (by simp [hg])]; simp
    | false =>
      rw [List.filter_cons_of_pos (by simp [hg])]
      cases hc : callbackOf x with
      | none => rw [List.filter_cons_of_neg (by simp [hc])]; simp
      | some f =>
        rw [List.filter_cons_of_pos (by simp [hc]), List.filterMap_cons_some (by rw [hc]; rfl)]
        simp

/-- A dispatch that dereferences no null pointer makes the invocations of the
reference definition. -/
theorem run_entries_invocations (event : E) (l : List (Entry E F))
    (hsafe : derefSafe l = true) :
    invocations (run_entries event l).log = dispatch_reference event l := by
  induction l with
  | nil => simp [run_entries, invocations, dispatch_reference]
  | cons p rest ih =>
    obtain ⟨k, v⟩ := p
    have hrest : derefSafe rest = true := by
      simp only [derefSafe, List.all_cons, Bool.and_eq_true] at hsafe ⊢
      exact hsafe.2
    rw [dispatch_reference_cons, ← ih hrest]
    cases hr : string.startswith k "_" with
    | true => simp [run_entries_reserved event k v rest hr, expectedCalls, hr]
    | false =>
      cases v with
      | none => simp [derefSafe, hr] at hsafe
      | some h =>
        rw [run_entries_some event k h rest hr]
        simp only [invocations, List.filter_append, entryEffects_calls]
        simp [expectedCalls, hr]

theorem findEntries_mem (name : String) (l : List (Entry E F)) (v : Option (Handler E F))
    (hf : findEntries name l = some v) : (name, v) ∈ l := by
  induction l with
  | nil => simp [findEntries] at hf
  | cons p rest ih =>
    obtain ⟨k, v'⟩ := p
    simp only [findEntries] at hf
    split_ifs at hf with h1
    · cases hf
      subst h1
      exact List.mem_cons_self _ _
    · exact List.mem_cons_of_mem _ (ih hf)

theorem callsOf_append (name : String) (l₁ l₂ : List (String × Effect E F)) :
    callsOf name (l₁ ++ l₂) = callsOf name l₁ ++ callsOf name l₂ := by
  simp [callsOf]

theorem callsOf_eq_nil_of_label (name : String) (log : List (String × Effect E F))
    (h : ∀ a ∈ log, a.1 ≠ name) : callsOf name log = [] := by
  simp only [callsOf, List.filter_eq_nil_iff]
  intro a ha
  simp [h a ha]

theorem callsOf_entryEffects_self (event : E) (name : String) (h : Handler E F) :
    callsOf name (entryEffects event name h) =
      if (h.check_condition event).1 then (h.run (Session.mk event)).map (Prod.mk name)
      else [] := by
  rw [← entryEffects_calls]
  unfold callsOf
  apply List.filter_congr
  intro a ha
  simp [entryEffects_label event name h a ha]

theorem callsOf_entryEffects_other (event : E) (name k : String) (h : Handler E F)
    (hk : k ≠ name) : callsOf name (entryEffects event k h) = [] := by
  apply callsOf_eq_nil_of_label
  intro a ha
  rw [entryEffects_label event k h a ha]
  exact hk

/-- The invocations made for one entry of a key-sorted list: those due to it,
or none when a null pointer is dereferenced. -/
theorem callsOf_run_entries (event : E) (l : List (Entry E F)) (hs : l.Pairwise keyLt)
    (name : String) (v : Option (Handler E F)) (hf : findEntries name l = some v) :
    callsOf name (run_entries event l).log = expectedCalls event (name, v) ∨
      (derefSafe l = false ∧ callsOf name (run_entries event l).log = []) := by
  induction l with
  | nil => simp [findEntries] at hf
  | cons p rest ih =>
    obtain ⟨k, v'⟩ := p
    have htail := (List.pairwise_cons.1 hs).2
    have hafter : ∀ a ∈ (run_entries event rest).log, a.1 ≠ k := by
      intro a ha hak
      have := run_entries_label_after event k v' rest hs a ha
      rw [hak] at this
      exact lt_irrefl _ this
    simp only [findEntries] at hf
    split_ifs at hf with h1
    · cases hf
      subst h1
      left
      cases hr : string.startswith name "_" with
      | true =>
        rw [run_entries_reserved event name v rest hr, callsOf_eq_nil_of_label name _ hafter]
        simp [expectedCalls, hr]
      | false =>
        cases v with
        | none => simp [run_entries_null event name rest hr, callsOf, expectedCalls, hr]
        | some h =>
          rw [run_entries_some event name h rest hr]
          simp only [callsOf_append, callsOf_eq_nil_of_label name _ hafter,
            callsOf_entryEffects_self, List.append_nil]
          simp [expectedCalls, hr]
    · cases hr : string.startswith k "_" with
      | true =>
        rw [run_entries_reserved event k v' rest hr]
        rcases ih htail hf with h2 | ⟨h2, h3⟩
        · exact Or.inl h2
        · exact Or.inr ⟨by simp [derefSafe, hr] at h2 ⊢; exact h2, h3⟩
      | false =>
        cases v' with
        | none =>
          right
          simp [run_entries_null event k rest hr, callsOf, derefSafe, hr]
        | some h =>
          rw [run_entries_some event k h rest hr]
          simp only [callsOf_append,
            callsOf_entryEffects_other event name k h (fun hk => h1 hk.symm), List.nil_append]
          rcases ih htail hf with h2 | ⟨h2, h3⟩
          · exact Or.inl h2
          · exact Or.inr ⟨by simp [derefSafe, hr] at h2 ⊢; exact h2, h3⟩

/-- When no null pointer is dereferenced, an entry gets exactly the invocations due to it. -/
theorem callsOf_run_entries_safe (event : E) (l : List (Entry E F)) (hs : l.Pairwise keyLt)
    (name : String) (v : Option (Handler E F)) (hf : findEntries name l = some v)
    (hsafe : derefSafe l = true) :
    callsOf name (run_entries event l).log = expectedCalls event (name, v) := by
  rcases callsOf_run_entries event l hs name v hf with h | ⟨h, -⟩
  · exact h
  · rw [hsafe] at h; cases h

theorem not_mem_of_callsOf_eq_nil (name : String) (log : List (String × Effect E F))
    (h : callsOf name log = []) (f : F) (s : Session E) :
    (name, Effect.call f s) ∉ log := by
  intro hmem
  have : (name, Effect.call f s) ∈ callsOf name log := by
    simp [callsOf, hmem, isCall]
  rw [h] at this
  cases this

/-- The invocations due to an entry are none, or the one invocation of its callback. -/
theorem expectedCalls_cases (event : E) (name : String) (v : Option (Handler E F)) :
    expectedCalls event (name, v) = [] ∨
      ∃ h f, v = some h ∧ h._impl = some f ∧ string.startswith name "_" = false ∧
        (h.check_condition event).1 = true ∧
        expectedCalls event (name, v) = [(name, Effect.call f (Session.mk event))] := by
  cases hr : string.startswith name "_" with
  | true => left; simp [expectedCalls, hr]
  | false =>
    cases v with
    | none => left; simp [expectedCalls, hr]
    | some h =>
      cases hc : (h.check_condition event).1 with
      | false => left; simp [expectedCalls, hr, hc]
      | true =>
        cases hi : h._impl with
        | none => left; simp [expectedCalls, hr, hc, Handler.run, hi]
        | some f =>
          right
          exact ⟨h, f, rfl, hi, rfl, hc, by simp [expectedCalls, hr, hc, Handler.run, hi]⟩

theorem expectedCalls_of_match (event : E) (name : String) (h : Handler E F) (f : F)
    (hr : string.startswith name "_" = false) (hc : (h.check_condition event).1 = true)
    (hi : h._impl = some f) :
    expectedCalls event (name, some h) = [(name, Effect.call f (Session.mk event))] := by
  simp [expectedCalls, hr, hc, Handler.run, hi]

theorem findEntries_assignEntries_self (name : String) (handler : Option (Handler E F))
    (l : List (Entry E F)) : findEntries name (assignEntries name handler l) = some handler := by
  induction l with
  | nil => simp [assignEntries, findEntries]
  | cons p rest ih =>
    obtain ⟨k, v⟩ := p
    simp only [assignEntries]
    split_ifs with h1 h2
    · simp [findEntries]
    · simp [findEntries]
    · simp [findEntries, h2, ih]

theorem assignEntries_assignEntries (name : String) (h₁ h₂ : Option (Handler E F))
    (l : List (Entry E F)) :
    assignEntries name h₂ (assignEntries name h₁ l) = assignEntries name h₂ l := by
  induction l with
  | nil => simp [assignEntries]
  | cons p rest ih =>
    obtain ⟨k, v⟩ := p
    simp only [assignEntries]
    split_ifs with h1 h2
    · simp [assignEntries]
    · simp [assignEntries]
    · simp [assignEntries, h1, h2, ih]

/-- The labels of a dispatch log never decrease. -/
theorem run_entries_log_sorted (event : E) (l : List (Entry E F)) (hs : l.Pairwise keyLt) :
    (run_entries event l).log.Pairwise (fun a b => a.1.data ≤ b.1.data) := by
  induction l with
  | nil => simp [run_entries]
  | cons p rest ih =>
    obtain ⟨k, v⟩ := p
    have htail := (List.pairwise_cons.1 hs).2
    cases hr : string.startswith k "_" with
    | true =>
      rw [run_entries_reserved event k v rest hr]
      exact ih htail
    | false =>
      cases v with
      | none => simp [run_entries_null event k rest hr]
      | some h =>
        rw [run_entries_some event k h rest hr]
        refine List.pairwise_append.2 ⟨?_, ih htail, ?_⟩
        · refine List.pairwise_of_forall_mem_list ?_
          intro a ha b hb
          rw [entryEffects_label event k h a ha, entryEffects_label event k h b hb]
        · intro a ha b hb
          rw [entryEffects_label event k h a ha]
          exact le_of_lt (run_entries_label_after event k (some h) rest hs b hb)

/-- Taking an entry with a null callback out of a key-sorted list changes
nothing for the other entries. -/
theorem run_entries_without_null_callback (event : E) (l₁ l₂ : List (Entry E F))
    (name : String) (h : Handler E F)
    (hs : (l₁ ++ (name, some h) :: l₂).Pairwise keyLt) (hi : h._impl = none) :
    (run_entries event (l₁ ++ l₂)).log =
        (run_entries event (l₁ ++ (name, some h) :: l₂)).log.filter
          (fun a => decide (a.1 ≠ name)) ∧
      (run_entries event (l₁ ++ l₂)).fault =
        (run_entries event (l₁ ++ (name, some h) :: l₂)).fault ∧
      invocations (run_entries event (l₁ ++ l₂)).log =
        invocations (run_entries event (l₁ ++ (name, some h) :: l₂)).log := by
  induction l₁ with
  | nil =>
    simp only [List.nil_append] at hs ⊢
    have hafter : ∀ a ∈ (run_entries event l₂).log, decide (a.1 ≠ name) = true := by
      intro a ha
      have := run_entries_label_after event name (some h) l₂ hs a ha
      simp only [decide_eq_true_eq]
      intro hak
      rw [hak] at this
      exact lt_irrefl _ this
    cases hr : string.startswith name "_" with
    | true =>
      rw [run_entries_reserved event name (some h) l₂ hr]
      exact ⟨(List.filter_eq_self.2 hafter).symm, rfl, rfl⟩
    | false =>
      rw [run_entries_some event name h l₂ hr]
      refine ⟨?_, rfl, ?_⟩
      · simp only [List.filter_append, List.filter_eq_self.2 hafter]
        have : (entryEffects event name h).filter (fun a => decide (a.1 ≠ name)) = [] := by
          rw [List.filter_eq_nil_iff]
          intro a ha
          simp [entryEffects_label event name h a ha]
        rw [this, List.nil_append]
      · simp only [invocations, List.filter_append, entryEffects_calls, Handler.run, hi]
        simp
  | cons p rest ih =>
    obtain ⟨k, v⟩ := p
    simp only [List.cons_append] at hs ⊢
    have htail := (List.pairwise_cons.1 hs).2
    have hk : k ≠ name := by
      intro hk
      have := (List.pairwise_cons.1 hs).1 (name, some h) (by simp)
      simp only [keyLt, hk] at this
      exact lt_irrefl _ this
    obtain ⟨ih1, ih2, ih3⟩ := ih htail
    cases hr : string.startswith k "_" with
    | true =>
      rw [run_entries_reserved event k v _ hr, run_entries_reserved event k v _ hr]
      exact ⟨ih1, ih2, ih3⟩
    | false =>
      cases v with
      | none =>
        rw [run_entries_null event k _ hr, run_entries_null event k _ hr]
        exact ⟨rfl, rfl, rfl⟩
      | some h' =>
        rw [run_entries_some event k h' _ hr, run_entries_some event k h' _ hr]
        refine ⟨?_, ih2, ?_⟩
        · simp only [List.filter_append, ← ih1]
          have : (entryEffects event k h').filter (fun a => decide (a.1 ≠ name)) =
              entryEffects event k h' := by
            rw [List.filter_eq_self]
            intro a ha
            simp [entryEffects_label event k h' a ha, hk]
          rw [this]
        · simp only [invocations, List.filter_append] at ih3 ⊢
          rw [ih3]

end LoopLemmas

section StateLemmas

variable {Ev : Category → Type} {F : Type}

theorem handlers_setHandlers (w : _HandlerMapWrapper Ev F) (c : Category)
    (m : HandlerMap (Ev c) F) : (w.setHandlers c m).handlers (EventType.base c) = m := by
  cases c <;> rfl

/-- The map of a specialization at a derived class is empty. -/
theorem handlers_derived (w : _HandlerMapWrapper Ev F) (c : Category) (d : String) :
    w.handlers ⟨c, some d⟩ = HandlerMap.empty := by
  cases c <;> rfl

/-- A dispatch at a derived class finds nothing to run. -/
theorem run_handlers_derived (w : _HandlerMapWrapper Ev F) (c : Category) (d : String)
    (event : Ev c) : (run_handlers ⟨c, some d⟩ event w).1 = ⟨[], false⟩ := by
  simp only [run_handlers, handlers_derived]
  rfl

theorem setHandlers_setHandlers (w : _HandlerMapWrapper Ev F) (c : Category)
    (m₁ m₂ : HandlerMap (Ev c) F) :
    (w.setHandlers c m₁).setHandlers c m₂ = w.setHandlers c m₂ := by
  cases c <;> rfl

theorem HandlerMap.eq_of_entries {E : Type} (m₁ m₂ : HandlerMap E F)
    (h : m₁.entries = m₂.entries) : m₁ = m₂ := by
  cases m₁; cases m₂; cases h; rfl

theorem run_many_eq (ds : List (Sigma (fun t : EventType => Ev t.category)))
    (w : _HandlerMapWrapper Ev F) :
    run_many ds w = w := by
  induction ds generalizing w with
  | nil => rfl
  | cons d rest ih =>
    obtain ⟨c, event⟩ := d
    simp only [run_many, run_handlers]
    exact ih w

end StateLemmas

/-! ## Registration -/

section RegistrationLemmas

variable {E F : Type}

theorem findEntries_assignEntries_other (name n : String) (handler : Option (Handler E F))
    (l : List (Entry E F)) (hn : n ≠ name) :
    findEntries n (assignEntries name handler l) = findEntries n l := by
  induction l with
  | nil => simp [assignEntries, findEntries, hn]
  | cons p rest ih =>
    obtain ⟨k, v⟩ := p
    simp only [assignEntries]
    split_ifs with h1 h2
    · simp [findEntries, hn]
    · subst h2
      simp [findEntries, hn]
    · simp only [findEntries, ih]

theorem handlers_setHandlers_other {Ev : Category → Type} (w : _HandlerMapWrapper Ev F)
    (c c' : Category) (m : HandlerMap (Ev c) F) (hc : c' ≠ c) :
    (w.setHandlers c m).handlers (EventType.base c') = w.handlers (EventType.base c') := by
  cases c <;> cases c' <;> first | rfl | exact absurd rfl hc

end RegistrationLemmas

section OriginLemmas

variable {E F : Type}

theorem findEntries_eq_none_of_lt (n : String) (l : List (Entry E F))
    (h : ∀ x ∈ l, n.data < x.1.data) : findEntries n l = none := by
  induction l with
  | nil => rfl
  | cons p rest ih =>
    obtain ⟨k, v⟩ := p
    have hk : n ≠ k := by
      intro hk
      have := h (k, v) (List.mem_cons_self _ _)
      rw [hk] at this
      exact lt_irrefl _ this
    simp only [findEntries, hk, if_false]
    exact ih (fun x hx => h x (List.mem_cons_of_mem _ hx))

/-- In a key-sorted list an entry is found under its key. -/
theorem mem_findEntries (n : String) (v : Option (Handler E F)) (l : List (Entry E F))
    (hs : l.Pairwise keyLt) (hmem : (n, v) ∈ l) : findEntries n l = some v := by
  induction l with
  | nil => cases hmem
  | cons p rest ih =>
    obtain ⟨k, v'⟩ := p
    rcases List.mem_cons.1 hmem with h | h
    · cases h
      simp [findEntries]
    · have hk : n ≠ k := by
        intro hk
        have := (List.pairwise_cons.1 hs).1 (n, v) h
        simp only [keyLt, hk] at this
        exact lt_irrefl _ this
      simp only [findEntries, hk, if_false]
      exact ih (List.pairwise_cons.1 hs).2 h

theorem entryEffects_call (event : E) (name n : String) (h : Handler E F) (f : F)
    (s : Session E) (ha : (n, Effect.call f s) ∈ entryEffects event name h) :
    n = name ∧ h._impl = some f ∧ s = Session.mk event := by
  have hn := entryEffects_label event name h _ ha
  refine ⟨hn, ?_⟩
  unfold entryEffects Handler.check_condition Handler.run at ha
  cases hc : h._condition <;> cases hi : h._impl <;> simp [hc, hi] at ha
  · exact ⟨congrArg some ha.2.1.symm, ha.2.2⟩
  · exact ⟨congrArg some ha.1.2.1.symm, ha.1.2.2⟩

/-- Every invocation in the log is of the callback of an entry of the list, on a
session built from the dispatched event. -/
theorem run_entries_call_origin (event : E) (l : List (Entry E F)) (n : String) (f : F)
    (s : Session E) (ha : (n, Effect.call f s) ∈ (run_entries event l).log) :
    ∃ h, (n, some h) ∈ l ∧ h._impl = some f ∧ s = Session.mk event := by
  induction l with
  | nil => simp [run_entries] at ha
  | cons p rest ih =>
    obtain ⟨k, v⟩ := p
    cases hr : string.startswith k "_" with
    | true =>
      rw [run_entries_reserved event k v rest hr] at ha
      obtain ⟨h, h1, h2⟩ := ih ha
      exact ⟨h, List.mem_cons_of_mem _ h1, h2⟩
    | false =>
      cases v with
      | none => simp [run_entries_null event k rest hr] at ha
      | some h =>
        rw [run_entries_some event k h rest hr] at ha
        rcases List.mem_append.1 ha with h1 | h1
        · obtain ⟨e1, e2, e3⟩ := entryEffects_call event k n h f s h1
          subst e1
          exact ⟨h, List.mem_cons_self _ _, e2, e3⟩
        · obtain ⟨h', h2, h3⟩ := ih h1
          exact ⟨h', List.mem_cons_of_mem _ h2, h3⟩

end OriginLemmas

section OrderLemmas

variable {E F : Type}

/-- Two key-sorted lists with the same lookups are the same list. -/
theorem sorted_entries_ext (l₁ l₂ : List (Entry E F)) (hs₁ : l₁.Pairwise keyLt)
    (hs₂ : l₂.Pairwise keyLt) (hfind : ∀ n, findEntries n l₁ = findEntries n l₂) :
    l₁ = l₂ := by
  induction l₁ generalizing l₂ with
  | nil =>
    cases l₂ with
    | nil => rfl
    | cons p rest =>
      have := hfind p.1
      simp [findEntries] at this
  | cons p₁ r₁ ih =>
    obtain ⟨k₁, v₁⟩ := p₁
    cases l₂ with
    | nil =>
      have := hfind k₁
      simp [findEntries] at this
    | cons p₂ r₂ =>
      obtain ⟨k₂, v₂⟩ := p₂
      have hh₁ := (List.pairwise_cons.1 hs₁).1
      have hh₂ := (List.pairwise_cons.1 hs₂).1
      have hk : k₁ = k₂ := by
        by_contra hne
        have h1 : (k₁, v₁) ∈ r₂ := by
          have hf := hfind k₁
          simp only [findEntries, if_true, hne, if_false] at hf
          exact findEntries_mem k₁ r₂ v₁ hf.symm
        have h2 : (k₂, v₂) ∈ r₁ := by
          have hf := hfind k₂
          simp only [findEntries, if_true, Ne.symm hne, if_false] at hf
          exact findEntries_mem k₂ r₁ v₂ hf
        exact lt_asymm (hh₁ _ h2) (hh₂ _ h1)
      subst hk
      have hv : v₁ = v₂ := by
        have hf := hfind k₁
        simp only [findEntries, if_true] at hf
        exact Option.some.inj hf
      subst hv
      have hrest : r₁ = r₂ := by
        apply ih r₂ (List.pairwise_cons.1 hs₁).2 (List.pairwise_cons.1 hs₂).2
        intro n
        by_cases hn : n = k₁
        · subst hn
          rw [findEntries_eq_none_of_lt n r₁ hh₁, findEntries_eq_none_of_lt n r₂ hh₂]
        · have hf := hfind n
          simpa only [findEntries, hn, if_false] using hf
      rw [hrest]

/-- Assignments under two different keys commute on a key-sorted list. -/
theorem assignEntries_comm (n₁ n₂ : String) (h₁ h₂ : Option (Handler E F))
    (l : List (Entry E F)) (hs : l.Pairwise keyLt) (hne : n₁ ≠ n₂) :
    assignEntries n₂ h₂ (assignEntries n₁ h₁ l) =
      assignEntries n₁ h₁ (assignEntries n₂ h₂ l) := by
  apply sorted_entries_ext
  · exact assignEntries_sorted _ _ _ (assignEntries_sorted _ _ _ hs)
  · exact assignEntries_sorted _ _ _ (assignEntries_sorted _ _ _ hs)
  · intro n
    by_cases e₁ : n = n₁
    · subst e₁
      rw [findEntries_assignEntries_other n₂ n h₂ _ hne, findEntries_assignEntries_self,
        findEntries_assignEntries_self]
    · by_cases e₂ : n = n₂
      · subst e₂
        rw [findEntries_assignEntries_self, findEntries_assignEntries_other n₁ n h₁ _ e₁,
          findEntries_assignEntries_self]
      · rw [findEntries_assignEntries_other n₂ n h₂ _ e₂,
          findEntries_assignEntries_other n₁ n h₁ _ e₁,
          findEntries_assignEntries_other n₁ n h₁ _ e₁,
          findEntries_assignEntries_other n₂ n h₂ _ e₂]

end OrderLemmas

section SizeLemmas

variable {E F : Type}

/-- The keys of a key-sorted list are strictly ascending, hence distinct. -/
theorem keys_of_sorted (l : List (Entry E F)) (hs : l.Pairwise keyLt) :
    (l.map Prod.fst).Pairwise (fun a b => a.data < b.data) ∧ (l.map Prod.fst).Nodup := by
  have h1 : (l.map Prod.fst).Pairwise (fun a b => a.data < b.data) :=
    List.pairwise_map.2 hs
  refine ⟨h1, ?_⟩
  refine List.Pairwise.imp ?_ h1
  intro a b hab heq
  rw [heq] at hab
  exact lt_irrefl _ hab

/-- Assignment keeps the size when the key is present and adds one when it is not. -/
theorem length_assignEntries (name : String) (handler : Option (Handler E F))
    (l : List (Entry E F)) (hs : l.Pairwise keyLt) :
    (assignEntries name handler l).length =
      if (findEntries name l).isSome then l.length else l.length + 1 := by
  induction l with
  | nil => simp [assignEntries, findEntries]
  | cons p rest ih =>
    obtain ⟨k, v⟩ := p
    have hhead := (List.pairwise_cons.1 hs).1
    by_cases h1 : name.data < k.data
    · have hk : name ≠ k := by
        intro hk
        rw [hk] at h1
        exact lt_irrefl _ h1
      have hnone : findEntries name rest = none :=
        findEntries_eq_none_of_lt name rest (fun x hx => lt_trans h1 (hhead x hx))
      simp [assignEntries, findEntries, h1, hk, hnone]
    · by_cases h2 : name = k
      · simp [assignEntries, findEntries, h1, h2]
      · simp only [assignEntries, findEntries, h1, h2, if_false, List.length_cons,
          ih (List.pairwise_cons.1 hs).2]
        split_ifs <;> rfl

end SizeLemmas

section GuardLemmas

variable {E F : Type}

theorem entryEffects_precedes (event : E) (name : String) (h : Handler E F) :
    (entryEffects event name h).Pairwise precedes := by
  unfold entryEffects Handler.check_condition Handler.run
  cases h._condition <;> cases h._impl <;> simp [precedes, isCall]
  all_goals split
  all_goals simp [precedes, isCall]

/-- The log is ordered by key, and within one entry the guard evaluation comes
before the callback invocation. -/
theorem run_entries_log_precedes (event : E) (l : List (Entry E F)) (hs : l.Pairwise keyLt) :
    (run_entries event l).log.Pairwise precedes := by
  induction l with
  | nil => simp [run_entries]
  | cons p rest ih =>
    obtain ⟨k, v⟩ := p
    have htail := (List.pairwise_cons.1 hs).2
    cases hr : string.startswith k "_" with
    | true =>
      rw [run_entries_reserved event k v rest hr]
      exact ih htail
    | false =>
      cases v with
      | none => simp [run_entries_null event k rest hr]
      | some h =>
        rw [run_entries_some event k h rest hr]
        refine List.pairwise_append.2 ⟨entryEffects_precedes event k h, ih htail, ?_⟩
        intro a ha b hb
        left
        rw [entryEffects_label event k h a ha]
        exact run_entries_label_after event k (some h) rest hs b hb

/-- When no null pointer is dereferenced, the part of the log labelled with the
key of a dispatchable entry is the effects of that entry. -/
theorem filter_label_run_entries (event : E) (l : List (Entry E F)) (hs : l.Pairwise keyLt)
    (name : String) (h : Handler E F) (hf : findEntries name l = some (some h))
    (hres : string.startswith name "_" = false) (hsafe : derefSafe l = true) :
    (run_entries event l).log.filter (fun a => decide (a.1 = name)) =
      entryEffects event name h := by
  induction l with
  | nil => simp [findEntries] at hf
  | cons p rest ih =>
    obtain ⟨k, v⟩ := p
    have htail := (List.pairwise_cons.1 hs).2
    have hrest : derefSafe rest = true := by
      simp only [derefSafe, List.all_cons, Bool.and_eq_true] at hsafe ⊢
      exact hsafe.2
    simp only [findEntries] at hf
    split_ifs at hf with h1
    · cases hf
      subst h1
      rw [run_entries_some event name h rest hres, List.filter_append]
      have hself : (entryEffects event name h).filter (fun a => decide (a.1 = name)) =
          entryEffects event name h := by
        rw [List.filter_eq_self]
        intro a ha
        simp [entryEffects_label event name h a ha]
      have hlater : (run_entries event rest).log.filter (fun a => decide (a.1 = name)) = [] := by
        rw [List.filter_eq_nil_iff]
        intro a ha
        have := run_entries_label_after event name (some h) rest hs a ha
        simp only [decide_eq_true_eq]
        intro hak
        rw [hak] at this
        exact lt_irrefl _ this
      rw [hself, hlater, List.append_nil]
    · cases hr : string.startswith k "_" with
      | true =>
        rw [run_entries_reserved event k v rest hr]
        exact ih htail hf hrest
      | false =>
        cases v with
        | none => simp [derefSafe, hr] at hsafe
        | some h' =>
          rw [run_entries_some event k h' rest hr, List.filter_append]
          have hother : (entryEffects event k h').filter (fun a => decide (a.1 = name)) = [] := by
            rw [List.filter_eq_nil_iff]
            intro a ha
            simp only [decide_eq_true_eq, entryEffects_label event k h' a ha]
            exact fun hk => h1 hk.symm
          rw [hother, List.nil_append]
          exact ih htail hf hrest

theorem entryEffects_guards (event : E) (name : String) (h : Handler E F) (g : E → Bool)
    (hg : h._condition = some g) :
    (entryEffects event name h).filter (fun a => !isCall a) = [(name, Effect.guard event)] := by
  unfold entryEffects Handler.check_condition Handler.run
  rw [hg]
  cases h._impl <;> cases g event <;> simp [isCall]

/-- In a log ordered by `precedes`, an effect that does not come after another
one comes before it. -/
theorem index_lt_of_precedes (log : List (String × Effect E F)) (hp : log.Pairwise precedes)
    (i j : Nat) (a b : String × Effect E F) (hi : log[i]? = some a) (hj : log[j]? = some b)
    (hba : ¬ precedes b a) (hne : a ≠ b) : i < j := by
  obtain ⟨hi', hia⟩ := List.getElem?_eq_some.1 hi
  obtain ⟨hj', hjb⟩ := List.getElem?_eq_some.1 hj
  by_contra hij
  rcases Nat.lt_or_eq_of_le (Nat.le_of_not_lt hij) with hlt | heq
  · have := List.pairwise_iff_getElem.1 hp j i hj' hi' hlt
    rw [hia, hjb] at this
    exact hba this
  · subst heq
    rw [hia] at hjb
    exact hne hjb

end GuardLemmas

section FilterLemmas

/-- The test `startswith(name, "_")` looks at the first character only. -/
theorem startswith_underscore (name : String) :
    string.startswith name "_" = true ↔ name.data.head? = some '_' := by
  unfold string.startswith
  have hdata : "_".data = ['_'] := rfl
  rw [hdata]
  cases name.data with
  | nil => simp [List.isPrefixOf]
  | cons ch cs =>
    simp only [List.isPrefixOf, Bool.and_true, beq_iff_eq, List.head?_cons, Option.some.injEq]
    exact eq_comm

end FilterLemmas

section SessionLemmas

variable {E F : Type}

theorem run_with_effects (act : F → Session E → Session E) (h : Handler E F)
    (session : Session E) : (h.run_with act session).2 = h.run session := by
  unfold Handler.run_with Handler.run
  cases h._impl <;> rfl

/-- What the callbacks do to their sessions does not change the outcome. -/
theorem run_entries_with_outcome (act : F → Session E → Session E) (event : E)
    (l : List (Entry E F)) : (run_entries_with act event l).1 = run_entries event l := by
  induction l with
  | nil => rfl
  | cons p rest ih =>
    obtain ⟨k, v⟩ := p
    cases hr : string.startswith k "_" with
    | true => simp [run_entries_with, run_entries, hr, ih]
    | false =>
      cases v with
      | none => simp [run_entries_with, run_entries, hr]
      | some h =>
        cases hc : (h.check_condition event).1 with
        | true => simp [run_entries_with, run_entries, hr, hc, ih, run_with_effects]
        | false => simp [run_entries_with, run_entries, hr, hc, ih]

end SessionLemmas

/-! ## The claims -/

section Claims

variable {Ev : Category → Type} {F : Type}

/-- C1 (as stated, fails): with the entry `"a"` holding a null handler pointer
and the entry `"b"` a handler without guard, the reference definition invokes
the callback of `"b"`, while `run_handlers` dereferences the null pointer of
`"a"` and invokes nothing; and on an event whose static type is the derived
class `cq::GroupMessageEvent`, `run_handlers` reads the map of its own
specialization and invokes nothing, while the reference definition on the
message registry invokes `"a_handler"` and `"b_handler"`. -/
theorem run_handlers_reference_counterexample :
    ((run_handlers (EventType.base Category.message) (5 : Nat) nullRegistry).1 = ⟨[], true⟩ ∧
      dispatch_reference (5 : Nat)
          (nullRegistry.handlers (EventType.base Category.message)).entries =
        [("b", Effect.call "fb" (Session.mk (5 : Nat)))] ∧
      invocations (run_handlers (EventType.base Category.message) (5 : Nat)
          nullRegistry).1.log ≠
        dispatch_reference (5 : Nat)
          (nullRegistry.handlers (EventType.base Category.message)).entries) ∧
    (derefSafe (exampleRegistry.handlers (EventType.base Category.message)).entries = true ∧
      (run_handlers groupMessageEvent (5 : Nat) exampleRegistry).1 = ⟨[], false⟩ ∧
      dispatch_reference (5 : Nat)
          (exampleRegistry.handlers (EventType.base Category.message)).entries =
        [("a_handler", Effect.call "fa" (Session.mk (5 : Nat))),
          ("b_handler", Effect.call "fb" (Session.mk (5 : Nat)))]) := by
  decide

/-- C1 (amended): for every state of the registries in which no entry of the
category-`c` registry with a name not starting with `"_"` holds a null handler
pointer, and every event whose static type is the base event class of the
category `c`, the callback invocations made by `run_handlers` are exactly
those of the reference definition, in that order, and the dispatch is not cut
short. -/
theorem run_handlers_eq_reference (w : _HandlerMapWrapper Ev F) (c : Category)
    (event : Ev c) (hsafe : derefSafe (w.handlers (EventType.base c)).entries = true) :
    invocations (run_handlers (EventType.base c) event w).1.log =
        dispatch_reference event (w.handlers (EventType.base c)).entries ∧
      (run_handlers (EventType.base c) event w).1.fault = false := by
  refine ⟨run_entries_invocations event _ hsafe, ?_⟩
  simp [run_handlers, run_entries_fault, hsafe]

/-- C1 (amended), at the example registry of the specification. -/
theorem run_handlers_eq_reference_witness :
    derefSafe (exampleRegistry.handlers (EventType.base Category.message)).entries = true ∧
      (invocations (run_handlers (EventType.base Category.message) (5 : Nat)
            exampleRegistry).1.log =
          dispatch_reference (5 : Nat)
            (exampleRegistry.handlers (EventType.base Category.message)).entries ∧
        (run_handlers (EventType.base Category.message) (5 : Nat)
          exampleRegistry).1.fault = false) :=
  ⟨by decide, run_handlers_eq_reference exampleRegistry Category.message (5 : Nat) (by decide)⟩

/-- C2 (as stated, fails): after two registrations under one name, a dispatch
makes no invocation for the entry, instead of one, when the name starts with
`"_"`, when the guard of the second handler rejects the event, when the
callback of the second handler is null, when an entry before it holds a null
handler pointer, and when the static type of the event is a derived class. -/
theorem last_write_wins_counterexample :
    callsOf "_n" (run_handlers (EventType.base Category.message) (5 : Nat)
      (registerAll [("_n", some (accepting "f1")), ("_n", some (accepting "f2"))])).1.log = [] ∧
    callsOf "n" (run_handlers (EventType.base Category.message) (5 : Nat)
      (registerAll [("n", some (accepting "f1")), ("n", some (rejecting "f2"))])).1.log = [] ∧
    callsOf "n" (run_handlers (EventType.base Category.message) (5 : Nat)
      (registerAll [("n", some (accepting "f1")), ("n", some noCallback)])).1.log = [] ∧
    callsOf "n" (run_handlers (EventType.base Category.message) (5 : Nat)
      (registerAll [("a", none), ("n", some (accepting "f1")),
        ("n", some (accepting "f2"))])).1.log = [] ∧
    callsOf "n" (run_handlers groupMessageEvent (5 : Nat)
      (registerAll [("n", some (accepting "f1")), ("n", some (accepting "f2"))])).1.log = [] := by
  decide

/-- C2 (amended): after `add_handler(N, h1)` followed by `add_handler(N, h2)`
in one category, the registry maps `N` to `h2` and the state is the one that
registering `h2` alone gives; a subsequent `run_handlers` on an event of that
category makes at most one invocation for the entry `N`, and only of the
callback of `h2` on a session of the event; it makes exactly that one when the
static type of the event is the base event class of the category, `N` does not
start with `"_"`, `h2` is a handler with a callback whose guard is absent or
accepts the event, and no dereferenced entry of the registry holds a null
handler pointer. -/
theorem last_write_wins (w : _HandlerMapWrapper Ev F) (c : Category) (name : String)
    (h₁ h₂ : Option (Handler (Ev c) F)) (d : Option String) (event : Ev c) :
    ((add_handler c name h₂ (add_handler c name h₁ w).2).2.handlers
      (EventType.base c)).find name = some h₂ ∧
    (add_handler c name h₂ (add_handler c name h₁ w).2).2 = (add_handler c name h₂ w).2 ∧
    (callsOf name (run_handlers (EventType.mk c d) event
      (add_handler c name h₂ (add_handler c name h₁ w).2).2).1.log).length ≤ 1 ∧
    (∀ a ∈ callsOf name (run_handlers (EventType.mk c d) event
        (add_handler c name h₂ (add_handler c name h₁ w).2).2).1.log,
      ∃ h f, h₂ = some h ∧ h._impl = some f ∧
        a = (name, Effect.call f (Session.mk event))) ∧
    (∀ h f, h₂ = some h → h._impl = some f → string.startswith name "_" = false →
      (h.check_condition event).1 = true →
      derefSafe ((add_handler c name h₂ (add_handler c name h₁ w).2).2.handlers
        (EventType.base c)).entries = true →
      callsOf name (run_handlers (EventType.base c) event
        (add_handler c name h₂ (add_handler c name h₁ w).2).2).1.log =
        [(name, Effect.call f (Session.mk event))]) := by
  have hstate : (add_handler c name h₂ (add_handler c name h₁ w).2).2 =
      (add_handler c name h₂ w).2 := by
    simp only [add_handler, handlers_setHandlers, setHandlers_setHandlers]
    congr 1
    exact HandlerMap.eq_of_entries _ _ (assignEntries_assignEntries name h₁ h₂ _)
  have hfind : ((add_handler c name h₂ w).2.handlers (EventType.base c)).find name =
      some h₂ := by
    simp only [add_handler, handlers_setHandlers]
    exact findEntries_assignEntries_self name h₂ _
  rw [hstate]
  have hcalls := callsOf_run_entries event
    ((add_handler c name h₂ w).2.handlers (EventType.base c)).entries
    ((add_handler c name h₂ w).2.handlers (EventType.base c)).sorted name h₂ hfind
  have hlog : (run_handlers (EventType.base c) event (add_handler c name h₂ w).2).1.log =
      (run_entries event ((add_handler c name h₂ w).2.handlers (EventType.base c)).entries).log :=
    rfl
  have hmost : (callsOf name (run_handlers (EventType.base c) event
        (add_handler c name h₂ w).2).1.log).length ≤ 1 ∧
      (∀ a ∈ callsOf name (run_handlers (EventType.base c) event
          (add_handler c name h₂ w).2).1.log,
        ∃ h f, h₂ = some h ∧ h._impl = some f ∧
          a = (name, Effect.call f (Session.mk event))) := by
    rw [hlog]
    constructor
    · rcases hcalls with h | ⟨-, h⟩
      · rw [h]
        rcases expectedCalls_cases event name h₂ with h' | ⟨_, _, _, _, _, _, h'⟩ <;>
          simp [h']
      · simp [h]
    · intro a ha
      rcases hcalls with h | ⟨-, h⟩
      · rw [h] at ha
        rcases expectedCalls_cases event name h₂ with h' | ⟨hd, f, e1, e2, _, _, h'⟩
        · simp [h'] at ha
        · rw [h'] at ha
          exact ⟨hd, f, e1, e2, List.mem_singleton.1 ha⟩
      · simp [h] at ha
  refine ⟨hfind, rfl, ?_, ?_, ?_⟩
  · cases d with
    | none => exact hmost.1
    | some d => simp [run_handlers_derived, callsOf]
  · cases d with
    | none => exact hmost.2
    | some d => simp [run_handlers_derived, callsOf]
  · intro h f e1 e2 hr hc hsafe
    subst e1
    rw [hlog, callsOf_run_entries_safe event _
      ((add_handler c name (some h) w).2.handlers (EventType.base c)).sorted
      name (some h) hfind hsafe]
    exact expectedCalls_of_match event name h f hr hc e2

/-- C2 (amended), at two registrations of `"n"` in the empty message registry. -/
theorem last_write_wins_witness :
    string.startswith "n" "_" = false ∧
    ((accepting "f2").check_condition (5 : Nat)).1 = true ∧
    derefSafe ((add_handler Category.message "n" (some (accepting "f2"))
      (add_handler Category.message "n" (some (accepting "f1"))
        (_HandlerMapWrapper.init : _HandlerMapWrapper ExEv String)).2).2.handlers
          (EventType.base Category.message)).entries = true ∧
    callsOf "n" (run_handlers (EventType.base Category.message) (5 : Nat)
      (add_handler Category.message "n" (some (accepting "f2"))
        (add_handler Category.message "n" (some (accepting "f1"))
          (_HandlerMapWrapper.init : _HandlerMapWrapper ExEv String)).2).2).1.log =
      [("n", Effect.call "f2" (Session.mk (5 : Nat)))] :=
  ⟨by decide, by decide, by decide,
    (last_write_wins (_HandlerMapWrapper.init : _HandlerMapWrapper ExEv String)
      Category.message "n" (some (accepting "f1")) (some (accepting "f2")) none
      (5 : Nat)).2.2.2.2
      (accepting "f2") "f2" rfl rfl (by decide) (by decide) (by decide)⟩

/-- C3: for every state of the registries and every event, of any static type,
`run_handlers` makes no callback invocation for an entry whose name begins
with the reserved prefix `"_"`, whatever handler (and so whatever guard) the
registry holds under it. -/
theorem reserved_never_invoked (w : _HandlerMapWrapper Ev F) (t : EventType)
    (event : Ev t.category) (name : String) (hres : string.startswith name "_" = true)
    (f : F) (s : Session (Ev t.category)) :
    (name, Effect.call f s) ∉ (run_handlers t event w).1.log := by
  intro hmem
  have h := (run_entries_label event (w.handlers t).entries _ hmem).1
  simp only at h
  rw [hres] at h
  cases h

/-- C3, at the entry `"_hidden"` of the example registry, whose guard accepts. -/
theorem reserved_never_invoked_witness :
    (exampleRegistry.handlers (EventType.base Category.message)).find "_hidden" =
      some (some (accepting "fh")) ∧
    string.startswith "_hidden" "_" = true ∧
    ("_hidden", Effect.call "fh" (Session.mk (5 : Nat))) ∉
      (run_handlers (EventType.base Category.message) (5 : Nat) exampleRegistry).1.log :=
  ⟨rfl, by decide,
    reserved_never_invoked exampleRegistry (EventType.base Category.message) (5 : Nat)
      "_hidden" (by decide) "fh" (Session.mk (5 : Nat))⟩

/-- C4: dispatch order is lexicographic by name: whenever one `run_handlers`
call, on an event of any static type, invokes the callbacks of two entries
named `a` and `b` with `a` before `b` in lexicographic order, the invocation
for `a` comes earlier in the log than the one for `b`.  For the registry
holding `"b_handler"`, `"a_handler"` and `"_hidden"`, registered in that order
with accepting guards, one dispatch invokes `"a_handler"`, then `"b_handler"`,
and nothing else. -/
theorem dispatch_order_lexicographic :
    (∀ (Ev : Category → Type) (F : Type) (w : _HandlerMapWrapper Ev F) (t : EventType)
      (event : Ev t.category) (i j : Nat) (a b : String) (fa fb : F)
      (sa sb : Session (Ev t.category)),
      (run_handlers t event w).1.log[i]? = some (a, Effect.call fa sa) →
      (run_handlers t event w).1.log[j]? = some (b, Effect.call fb sb) →
      a.data < b.data → i < j) ∧
    invocations (run_handlers (EventType.base Category.message) (5 : Nat)
        exampleRegistry).1.log =
      [("a_handler", Effect.call "fa" (Session.mk (5 : Nat))),
        ("b_handler", Effect.call "fb" (Session.mk (5 : Nat)))] := by
  refine ⟨?_, by decide⟩
  intro Ev F w t event i j a b fa fb sa sb hi hj hab
  have hsorted := run_entries_log_sorted event (w.handlers t).entries (w.handlers t).sorted
  have hlog : (run_handlers t event w).1.log =
      (run_entries event (w.handlers t).entries).log := rfl
  rw [hlog] at hi hj
  obtain ⟨hi', hia⟩ := List.getElem?_eq_some.1 hi
  obtain ⟨hj', hjb⟩ := List.getElem?_eq_some.1 hj
  by_contra hij
  rcases Nat.lt_or_eq_of_le (Nat.le_of_not_lt hij) with hlt | heq
  · have := List.pairwise_iff_getElem.1 hsorted j i hj' hi' hlt
    rw [hia, hjb] at this
    exact absurd hab (not_lt_of_le this)
  · subst heq
    rw [hia] at hjb
    cases hjb
    exact lt_irrefl _ hab

/-- C4, at the example registry: the invocation for `"a_handler"` is at
position 1 of the log, the one for `"b_handler"` at position 3. -/
theorem dispatch_order_lexicographic_witness :
    (run_handlers (EventType.base Category.message) (5 : Nat) exampleRegistry).1.log[1]? =
      some ("a_handler", Effect.call "fa" (Session.mk (5 : Nat))) ∧
    (run_handlers (EventType.base Category.message) (5 : Nat) exampleRegistry).1.log[3]? =
      some ("b_handler", Effect.call "fb" (Session.mk (5 : Nat))) ∧
    "a_handler".data < "b_handler".data ∧ 1 < 3 :=
  ⟨by decide, by decide, by decide,
    dispatch_order_lexicographic.1 ExEv String exampleRegistry
      (EventType.base Category.message) (5 : Nat) 1 3
      "a_handler" "b_handler" "fa" "fb" (Session.mk (5 : Nat)) (Session.mk (5 : Nat))
      (by decide) (by decide) (by decide)⟩

/-- C5: for every state of the registries and every event of a category, of
any static type, an entry registered in the registry of that category whose
guard is present and rejects the event never has its callback invoked by
`run_handlers`. -/
theorem rejected_never_invoked (w : _HandlerMapWrapper Ev F) (c : Category)
    (d : Option String) (event : Ev c)
    (name : String) (h : Handler (Ev c) F) (g : Ev c → Bool)
    (hfind : (w.handlers (EventType.base c)).find name = some (some h))
    (hg : h._condition = some g)
    (hrej : g event = false) (f : F) (s : Session (Ev c)) :
    (name, Effect.call f s) ∉ (run_handlers (EventType.mk c d) event w).1.log := by
  cases d with
  | some d => simp [run_handlers_derived]
  | none =>
    have hexp : expectedCalls event (name, some h) = [] := by
      simp [expectedCalls, Handler.check_condition, hg, hrej]
    apply not_mem_of_callsOf_eq_nil
    rcases callsOf_run_entries event (w.handlers (EventType.base c)).entries
      (w.handlers (EventType.base c)).sorted name (some h) hfind with h1 | ⟨-, h1⟩
    · exact h1.trans hexp
    · exact h1

/-- C5, at a registry whose entry `"n"` has a rejecting guard. -/
theorem rejected_never_invoked_witness :
    ((registerAll [("n", some (rejecting "f"))]).handlers
        (EventType.base Category.message)).find "n" = some (some (rejecting "f")) ∧
    (rejecting "f")._condition = some (fun _ => false) ∧
    ("n", Effect.call "f" (Session.mk (5 : Nat))) ∉
      (run_handlers (EventType.base Category.message) (5 : Nat)
        (registerAll [("n", some (rejecting "f"))])).1.log :=
  ⟨rfl, rfl,
    rejected_never_invoked (registerAll [("n", some (rejecting "f"))]) Category.message none
      (5 : Nat) "n" (rejecting "f") (fun _ => false) rfl rfl rfl "f" (Session.mk (5 : Nat))⟩

/-- C6 (as stated, fails): an entry whose guard accepts the event gets no
invocation when its name starts with `"_"`, when its callback is null, when an
entry before it holds a null handler pointer, and when the static type of the
event is a derived class. -/
theorem accepted_invoked_once_counterexample :
    ((exampleRegistry.handlers (EventType.base Category.message)).find "_hidden" =
        some (some (accepting "fh")) ∧
      ((accepting "fh").check_condition (5 : Nat)).1 = true ∧
      callsOf "_hidden" (run_handlers (EventType.base Category.message) (5 : Nat)
        exampleRegistry).1.log = []) ∧
    ((noCallback.check_condition (5 : Nat)).1 = true ∧
      callsOf "n" (run_handlers (EventType.base Category.message) (5 : Nat)
        (registerAll [("n", some noCallback)])).1.log = []) ∧
    (((accepting "fb").check_condition (5 : Nat)).1 = true ∧
      callsOf "b" (run_handlers (EventType.base Category.message) (5 : Nat)
        (registerAll [("a", none), ("b", some (accepting "fb"))])).1.log = []) ∧
    ((exampleRegistry.handlers (EventType.base Category.message)).find "b_handler" =
        some (some (accepting "fb")) ∧
      ((accepting "fb").check_condition (5 : Nat)).1 = true ∧
      callsOf "b_handler" (run_handlers groupMessageEvent (5 : Nat)
        exampleRegistry).1.log = []) :=
  ⟨⟨rfl, by decide, by decide⟩, ⟨by decide, by decide⟩, ⟨by decide, by decide⟩,
    ⟨rfl, by decide, by decide⟩⟩

/-- C6 (amended): for every state of the registries and every event whose
static type is the base event class of its category, a registered entry whose
name does not start with `"_"`, whose handler has a callback and a guard that
is absent or accepts the event, has its callback invoked exactly once by
`run_handlers`, on a session of the event, whatever the other entries are,
provided no dereferenced entry of the registry holds a null handler pointer. -/
theorem accepted_invoked_once (w : _HandlerMapWrapper Ev F) (c : Category) (event : Ev c)
    (name : String) (h : Handler (Ev c) F) (f : F)
    (hfind : (w.handlers (EventType.base c)).find name = some (some h))
    (hres : string.startswith name "_" = false)
    (hacc : (h.check_condition event).1 = true) (himpl : h._impl = some f)
    (hsafe : derefSafe (w.handlers (EventType.base c)).entries = true) :
    callsOf name (run_handlers (EventType.base c) event w).1.log =
      [(name, Effect.call f (Session.mk event))] := by
  have h1 := callsOf_run_entries_safe event (w.handlers (EventType.base c)).entries
    (w.handlers (EventType.base c)).sorted name (some h) hfind hsafe
  exact h1.trans (expectedCalls_of_match event name h f hres hacc himpl)

/-- C6 (amended), at the entry `"b_handler"` of the example registry. -/
theorem accepted_invoked_once_witness :
    (exampleRegistry.handlers (EventType.base Category.message)).find "b_handler" =
      some (some (accepting "fb")) ∧
    string.startswith "b_handler" "_" = false ∧
    ((accepting "fb").check_condition (5 : Nat)).1 = true ∧
    (accepting "fb")._impl = some "fb" ∧
    derefSafe (exampleRegistry.handlers (EventType.base Category.message)).entries = true ∧
    callsOf "b_handler" (run_handlers (EventType.base Category.message) (5 : Nat)
        exampleRegistry).1.log =
      [("b_handler", Effect.call "fb" (Session.mk (5 : Nat)))] :=
  ⟨rfl, by decide, by decide, rfl, by decide,
    accepted_invoked_once exampleRegistry Category.message (5 : Nat) "b_handler"
      (accepting "fb") "fb" rfl (by decide) (by decide) rfl (by decide)⟩

/-- C7: for every handler constructed with no guard (a null condition) and every
event, `check_condition` returns true without evaluating anything, so that
`run_handlers` at the base event class, once it reaches a dispatchable entry
holding such a handler, runs the handler. -/
theorem check_condition_no_guard (impl : Option F) (c : Category) (event : Ev c) :
    ((Handler.mk impl none : Handler (Ev c) F).check_condition event) = (true, []) ∧
    (∀ (w : _HandlerMapWrapper Ev F) (name : String),
      (w.handlers (EventType.base c)).find name = some (some (Handler.mk impl none)) →
      string.startswith name "_" = false →
      derefSafe (w.handlers (EventType.base c)).entries = true →
      callsOf name (run_handlers (EventType.base c) event w).1.log =
        ((Handler.mk impl none : Handler (Ev c) F).run (Session.mk event)).map
          (Prod.mk name)) := by
  refine ⟨rfl, ?_⟩
  intro w name hfind hres hsafe
  have h1 := callsOf_run_entries_safe event (w.handlers (EventType.base c)).entries
    (w.handlers (EventType.base c)).sorted name (some (Handler.mk impl none)) hfind hsafe
  rw [show (run_handlers (EventType.base c) event w).1.log =
    (run_entries event (w.handlers (EventType.base c)).entries).log from rfl, h1]
  simp [expectedCalls, hres, Handler.check_condition]

/-- C7, at a registry whose entry `"n"` has a callback and no guard. -/
theorem check_condition_no_guard_witness :
    ((registerAll [("n", some (unguarded "f"))]).handlers
        (EventType.base Category.message)).find "n" =
      some (some (Handler.mk (some "f") none)) ∧
    string.startswith "n" "_" = false ∧
    derefSafe ((registerAll [("n", some (unguarded "f"))]).handlers
      (EventType.base Category.message)).entries = true ∧
    callsOf "n" (run_handlers (EventType.base Category.message) (5 : Nat)
        (registerAll [("n", some (unguarded "f"))])).1.log =
      ((Handler.mk (some "f") none : Handler Nat String).run (Session.mk (5 : Nat))).map
        (Prod.mk "n") :=
  ⟨rfl, by decide, by decide,
    (check_condition_no_guard (some "f") Category.message (5 : Nat)).2
      (registerAll [("n", some (unguarded "f"))]) "n" rfl (by decide) (by decide)⟩

/-- C8: registration always succeeds: for every state of the registries, every
name and every handler pointer (null or not), `add_handler` returns true, and
afterwards the registry of the handler's category maps the name to exactly
that handler. -/
theorem add_handler_succeeds (w : _HandlerMapWrapper Ev F) (c : Category) (name : String)
    (handler : Option (Handler (Ev c) F)) :
    (add_handler c name handler w).1 = true ∧
      ((add_handler c name handler w).2.handlers (EventType.base c)).find name =
        some handler := by
  refine ⟨rfl, ?_⟩
  simp only [add_handler, handlers_setHandlers]
  exact findEntries_assignEntries_self name handler _

/-- C9: a missing callback is silently skipped: when the registry of a category
in `w` holds, among its entries, an entry `name` whose handler has a null
callback, and in `w'` it holds the same entries without that one, then a
dispatch in `w`, on an event of that category of any static type, makes no
invocation for `name`, raises a fault exactly when the dispatch in `w'` does,
makes the same invocations as the dispatch in `w'`, and its log without the
effects of `name` is the log of the dispatch in `w'`. -/
theorem null_callback_skipped (w w' : _HandlerMapWrapper Ev F) (c : Category)
    (d : Option String) (event : Ev c)
    (name : String) (h : Handler (Ev c) F) (l₁ l₂ : List (Entry (Ev c) F))
    (hw : (w.handlers (EventType.base c)).entries = l₁ ++ (name, some h) :: l₂)
    (hw' : (w'.handlers (EventType.base c)).entries = l₁ ++ l₂) (himpl : h._impl = none) :
    (∀ f s, (name, Effect.call f s) ∉ (run_handlers (EventType.mk c d) event w).1.log) ∧
    (run_handlers (EventType.mk c d) event w).1.fault =
      (run_handlers (EventType.mk c d) event w').1.fault ∧
    invocations (run_handlers (EventType.mk c d) event w).1.log =
      invocations (run_handlers (EventType.mk c d) event w').1.log ∧
    (run_handlers (EventType.mk c d) event w).1.log.filter (fun a => decide (a.1 ≠ name)) =
      (run_handlers (EventType.mk c d) event w').1.log := by
  cases d with
  | some d => simp [run_handlers_derived]
  | none =>
    have hs : (l₁ ++ (name, some h) :: l₂).Pairwise keyLt :=
      hw ▸ (w.handlers (EventType.base c)).sorted
    obtain ⟨h1, h2, h3⟩ := run_entries_without_null_callback event l₁ l₂ name h hs himpl
    simp only [run_handlers, hw, hw']
    refine ⟨?_, h2.symm, h3.symm, h1.symm⟩
    intro f s hmem
    have hinv : (name, Effect.call f s) ∈
        invocations (run_entries event (l₁ ++ (name, some h) :: l₂)).log := by
      simp [invocations, hmem, isCall]
    rw [← h3, h1] at hinv
    simp [invocations] at hinv

/-- C9, at a registry holding `"a"`, `"m"` (null callback) and `"z"`. -/
theorem null_callback_skipped_witness :
    ((registerAll [("a", some (accepting "fa")), ("m", some noCallback),
        ("z", some (unguarded "fz"))]).handlers (EventType.base Category.message)).entries =
      [("a", some (accepting "fa"))] ++ ("m", some noCallback) :: [("z", some (unguarded "fz"))] ∧
    ((registerAll [("a", some (accepting "fa")), ("z", some (unguarded "fz"))]).handlers
        (EventType.base Category.message)).entries =
      [("a", some (accepting "fa"))] ++ [("z", some (unguarded "fz"))] ∧
    noCallback._impl = none ∧
    invocations (run_handlers (EventType.base Category.message) (5 : Nat)
        (registerAll [("a", some (accepting "fa")), ("m", some noCallback),
          ("z", some (unguarded "fz"))])).1.log =
      invocations (run_handlers (EventType.base Category.message) (5 : Nat)
        (registerAll [("a", some (accepting "fa")), ("z", some (unguarded "fz"))])).1.log :=
  ⟨rfl, rfl, rfl,
    (null_callback_skipped
      (registerAll [("a", some (accepting "fa")), ("m", some noCallback),
        ("z", some (unguarded "fz"))])
      (registerAll [("a", some (accepting "fa")), ("z", some (unguarded "fz"))])
      Category.message none (5 : Nat) "m" noCallback [("a", some (accepting "fa"))]
      [("z", some (unguarded "fz"))] rfl rfl rfl).2.2.1⟩

/-- C10: a reserved-prefix entry is disabled, not absent: after
`add_handler(N, h)` with `N` beginning with `"_"` the registry maps `N` to `h`;
after any sequence of `run_handlers` calls the state is the same and the
registry still maps `N` to `h`; and no dispatch, on an event of any static
type, makes any effect for `N`. -/
theorem reserved_entry_persists (w : _HandlerMapWrapper Ev F) (c : Category) (name : String)
    (handler : Option (Handler (Ev c) F)) (hres : string.startswith name "_" = true)
    (ds : List (Sigma (fun t : EventType => Ev t.category))) :
    ((add_handler c name handler w).2.handlers (EventType.base c)).find name =
      some handler ∧
    run_many ds (add_handler c name handler w).2 = (add_handler c name handler w).2 ∧
    ((run_many ds (add_handler c name handler w).2).handlers (EventType.base c)).find name =
      some handler ∧
    (∀ (t : EventType) (event : Ev t.category) (eff : Effect (Ev t.category) F),
      (name, eff) ∉ (run_handlers t event (add_handler c name handler w).2).1.log) := by
  have hfind : ((add_handler c name handler w).2.handlers (EventType.base c)).find name =
      some handler := by
    simp only [add_handler, handlers_setHandlers]
    exact findEntries_assignEntries_self name handler _
  refine ⟨hfind, run_many_eq ds _, by rw [run_many_eq]; exact hfind, ?_⟩
  intro t event eff hmem
  have h := (run_entries_label event _ _ hmem).1
  simp only at h
  rw [hres] at h
  cases h

/-- C10, at the registration of `"_hidden"` followed by three dispatches. -/
theorem reserved_entry_persists_witness :
    string.startswith "_hidden" "_" = true ∧
    ((run_many [⟨EventType.base Category.message, (1 : Nat)⟩,
        ⟨EventType.base Category.notice, (2 : Nat)⟩, ⟨groupMessageEvent, (3 : Nat)⟩]
      (add_handler Category.message "_hidden" (some (accepting "fh"))
        (_HandlerMapWrapper.init : _HandlerMapWrapper ExEv String)).2).handlers
          (EventType.base Category.message)).find "_hidden" = some (some (accepting "fh")) :=
  ⟨by decide,
    (reserved_entry_persists (_HandlerMapWrapper.init : _HandlerMapWrapper ExEv String)
      Category.message "_hidden" (some (accepting "fh")) (by decide)
      [⟨EventType.base Category.message, (1 : Nat)⟩,
        ⟨EventType.base Category.notice, (2 : Nat)⟩,
        ⟨groupMessageEvent, (3 : Nat)⟩]).2.2.1⟩

/-- C11: `add_handler` changes only the entry it names: after `add_handler(N, h)`
in category `c` the registries of the two other categories are the same, and in
the category-`c` registry the lookup of every name other than `N` gives what it
gave before (the same handler when present, absent when absent). -/
theorem add_handler_frame (w : _HandlerMapWrapper Ev F) (c : Category) (name : String)
    (handler : Option (Handler (Ev c) F)) :
    (∀ c', c' ≠ c →
      (add_handler c name handler w).2.handlers (EventType.base c') =
        w.handlers (EventType.base c')) ∧
    (∀ n, n ≠ name →
      ((add_handler c name handler w).2.handlers (EventType.base c)).find n =
        (w.handlers (EventType.base c)).find n) := by
  constructor
  · intro c' hc
    exact handlers_setHandlers_other w c c' _ hc
  · intro n hn
    simp only [add_handler, handlers_setHandlers]
    exact findEntries_assignEntries_other name n handler _ hn

/-- C11, at the registration of `"c_handler"` as a notice handler and as a
message handler in the example registry. -/
theorem add_handler_frame_witness :
    Category.message ≠ Category.notice ∧
    (add_handler Category.notice "c_handler" (some (accepting "fc")) exampleRegistry).2.handlers
        (EventType.base Category.message) =
      exampleRegistry.handlers (EventType.base Category.message) ∧
    "a_handler" ≠ "c_handler" ∧
    ((add_handler Category.message "c_handler" (some (accepting "fc"))
        exampleRegistry).2.handlers (EventType.base Category.message)).find "a_handler" =
      (exampleRegistry.handlers (EventType.base Category.message)).find "a_handler" :=
  ⟨by decide,
    (add_handler_frame exampleRegistry Category.notice "c_handler"
      (some (accepting "fc"))).1 Category.message (by decide),
    by decide,
    (add_handler_frame exampleRegistry Category.message "c_handler"
      (some (accepting "fc"))).2 "a_handler" (by decide)⟩

/-- C12: dispatch is isolated per category: the outcome of `run_handlers` on an
event of category `c`, of any static type, is the same in any two states with
the same category-`c` registry, whatever their two other registries hold;
every invocation it makes is of the callback of an entry of the category-`c`
registry; and a name that is not a key of the category-`c` registry gets no
effect at all. -/
theorem dispatch_isolated (w w' : _HandlerMapWrapper Ev F) (c : Category)
    (d : Option String) (event : Ev c) :
    (w'.handlers (EventType.base c) = w.handlers (EventType.base c) →
      (run_handlers (EventType.mk c d) event w').1 =
        (run_handlers (EventType.mk c d) event w).1) ∧
    (∀ name f s, (name, Effect.call f s) ∈ (run_handlers (EventType.mk c d) event w).1.log →
      ∃ h, (w.handlers (EventType.base c)).find name = some (some h) ∧ h._impl = some f) ∧
    (∀ name, (w.handlers (EventType.base c)).find name = none →
      ∀ eff, (name, eff) ∉ (run_handlers (EventType.mk c d) event w).1.log) := by
  cases d with
  | some d => simp [run_handlers_derived]
  | none =>
    refine ⟨?_, ?_, ?_⟩
    · intro hw
      simp only [run_handlers, hw]
    · intro name f s hmem
      obtain ⟨h, h1, h2, -⟩ :=
        run_entries_call_origin event (w.handlers (EventType.base c)).entries name f s hmem
      exact ⟨h, mem_findEntries name (some h) _ (w.handlers (EventType.base c)).sorted h1, h2⟩
    · intro name hnone eff hmem
      obtain ⟨-, v, hv⟩ :=
        run_entries_label event (w.handlers (EventType.base c)).entries _ hmem
      have := mem_findEntries name v _ (w.handlers (EventType.base c)).sorted hv
      rw [HandlerMap.find] at hnone
      rw [hnone] at this
      cases this

/-- C12, at the example registry and the state that has, in addition, a notice
handler `"n_handler"`. -/
theorem dispatch_isolated_witness :
    (add_handler Category.notice "n_handler" (some (accepting "fn")) exampleRegistry).2.handlers
        (EventType.base Category.message) =
      exampleRegistry.handlers (EventType.base Category.message) ∧
    (run_handlers (EventType.base Category.message) (5 : Nat)
        (add_handler Category.notice "n_handler" (some (accepting "fn")) exampleRegistry).2).1 =
      (run_handlers (EventType.base Category.message) (5 : Nat) exampleRegistry).1 ∧
    ((add_handler Category.notice "n_handler" (some (accepting "fn"))
        exampleRegistry).2.handlers (EventType.base Category.message)).find "n_handler" =
      none ∧
    ("n_handler", Effect.call "fn" (Session.mk (5 : Nat))) ∉
      (run_handlers (EventType.base Category.message) (5 : Nat)
        (add_handler Category.notice "n_handler" (some (accepting "fn"))
          exampleRegistry).2).1.log :=
  ⟨rfl,
    (dispatch_isolated exampleRegistry
      (add_handler Category.notice "n_handler" (some (accepting "fn")) exampleRegistry).2
      Category.message none (5 : Nat)).1 rfl,
    rfl,
    (dispatch_isolated
      (add_handler Category.notice "n_handler" (some (accepting "fn")) exampleRegistry).2
      exampleRegistry Category.message none (5 : Nat)).2.2 "n_handler" rfl _⟩

/-- C13: dispatch order does not depend on registration time: for two distinct
names, registering `(n1, h1)` then `(n2, h2)` in one category gives the same
state as registering `(n2, h2)` then `(n1, h1)`, and so the same outcome of
`run_handlers` for every event, of any static type. -/
theorem registration_order_irrelevant (w : _HandlerMapWrapper Ev F) (c : Category)
    (n₁ n₂ : String) (h₁ h₂ : Option (Handler (Ev c) F)) (hne : n₁ ≠ n₂) :
    (add_handler c n₂ h₂ (add_handler c n₁ h₁ w).2).2 =
        (add_handler c n₁ h₁ (add_handler c n₂ h₂ w).2).2 ∧
    (∀ (t : EventType) (event : Ev t.category),
      (run_handlers t event (add_handler c n₂ h₂ (add_handler c n₁ h₁ w).2).2).1 =
        (run_handlers t event (add_handler c n₁ h₁ (add_handler c n₂ h₂ w).2).2).1) := by
  have hstate : (add_handler c n₂ h₂ (add_handler c n₁ h₁ w).2).2 =
      (add_handler c n₁ h₁ (add_handler c n₂ h₂ w).2).2 := by
    simp only [add_handler, handlers_setHandlers, setHandlers_setHandlers]
    congr 1
    exact HandlerMap.eq_of_entries _ _
      (assignEntries_comm n₁ n₂ h₁ h₂ _ (w.handlers (EventType.base c)).sorted hne)
  refine ⟨hstate, ?_⟩
  intro t event
  rw [hstate]

/-- C13, at the registrations of `"b_handler"` and `"a_handler"` in the empty
message registry, in both orders. -/
theorem registration_order_irrelevant_witness :
    "b_handler" ≠ "a_handler" ∧
    (run_handlers (EventType.base Category.message) (5 : Nat)
        (add_handler Category.message "a_handler" (some (accepting "fa"))
          (add_handler Category.message "b_handler" (some (accepting "fb"))
            (_HandlerMapWrapper.init : _HandlerMapWrapper ExEv String)).2).2).1 =
      (run_handlers (EventType.base Category.message) (5 : Nat)
        (add_handler Category.message "b_handler" (some (accepting "fb"))
          (add_handler Category.message "a_handler" (some (accepting "fa"))
            (_HandlerMapWrapper.init : _HandlerMapWrapper ExEv String)).2).2).1 :=
  ⟨by decide,
    (registration_order_irrelevant (_HandlerMapWrapper.init : _HandlerMapWrapper ExEv String)
      Category.message "b_handler" "a_handler" (some (accepting "fb"))
      (some (accepting "fa")) (by decide)).2 (EventType.base Category.message) (5 : Nat)⟩

/-- C14: name uniqueness is an invariant of the registry: in every state reached
from the empty registries by a sequence of `add_handler` calls, the keys of
each registry are in strictly ascending order and so pairwise distinct (at
most one entry per name); registering a name already present leaves the number
of entries unchanged, and registering a new name increases it by exactly one. -/
theorem names_unique (ops : List (Sigma (fun c => String × Option (Handler (Ev c) F))))
    (c : Category) (name : String) (handler : Option (Handler (Ev c) F)) :
    (((add_many ops _HandlerMapWrapper.init).handlers
        (EventType.base c)).entries.map Prod.fst).Pairwise (fun a b => a.data < b.data) ∧
    (((add_many ops _HandlerMapWrapper.init).handlers
        (EventType.base c)).entries.map Prod.fst).Nodup ∧
    ((add_handler c name handler (add_many ops _HandlerMapWrapper.init)).2.handlers
        (EventType.base c)).entries.length =
      if (((add_many ops _HandlerMapWrapper.init).handlers
          (EventType.base c)).find name).isSome then
        ((add_many ops _HandlerMapWrapper.init).handlers (EventType.base c)).entries.length
      else
        ((add_many ops _HandlerMapWrapper.init).handlers
          (EventType.base c)).entries.length + 1 := by
  have hs := ((add_many ops _HandlerMapWrapper.init).handlers (EventType.base c)).sorted
  refine ⟨(keys_of_sorted _ hs).1, (keys_of_sorted _ hs).2, ?_⟩
  simp only [add_handler, handlers_setHandlers]
  exact length_assignEntries name handler _ hs

/-- C15: every invoked callback receives a session freshly constructed from the
dispatched event itself: whatever the callbacks do to the sessions they are
passed by reference (`act`), `run_handlers` with the callbacks executed has the
outcome of `run_handlers`, and the session passed to each invocation is the one
built from the unmodified event, so what an earlier callback did to its own
session does not reach a later callback. -/
theorem session_built_from_event (w : _HandlerMapWrapper Ev F) (t : EventType)
    (act : F → Session (Ev t.category) → Session (Ev t.category)) (event : Ev t.category) :
    (run_handlers_with t act event w).1.1 = (run_handlers t event w).1 ∧
    (∀ name f s, (name, Effect.call f s) ∈ (run_handlers_with t act event w).1.1.log →
      s = Session.mk event ∧ s.event = event) := by
  have hout : (run_handlers_with t act event w).1.1 = (run_handlers t event w).1 :=
    run_entries_with_outcome act event (w.handlers t).entries
  refine ⟨hout, ?_⟩
  intro name f s hmem
  rw [hout] at hmem
  obtain ⟨_, -, -, hs⟩ := run_entries_call_origin event (w.handlers t).entries name f s hmem
  exact ⟨hs, by rw [hs]⟩

/-- C15, at the example registry with callbacks that change the event of the
session they are passed: the callback of `"a_handler"` leaves its session with
the event `6`, and the callback of `"b_handler"` is still passed the session of
the event `5`. -/
theorem session_built_from_event_witness :
    (run_handlers_with (EventType.base Category.message)
        (fun _ s => Session.mk (s.event + 1)) (5 : Nat) exampleRegistry).1.2 =
      [("a_handler", Session.mk (6 : Nat)), ("b_handler", Session.mk (6 : Nat))] ∧
    ("b_handler", Effect.call "fb" (Session.mk (5 : Nat))) ∈
      (run_handlers_with (EventType.base Category.message)
        (fun _ s => Session.mk (s.event + 1)) (5 : Nat) exampleRegistry).1.1.log ∧
    (Session.mk (5 : Nat)).event = 5 :=
  ⟨by decide, by decide,
    ((session_built_from_event exampleRegistry (EventType.base Category.message)
      (fun _ s => Session.mk (s.event + 1)) (5 : Nat)).2 "b_handler" "fb"
      (Session.mk (5 : Nat)) (by decide)).2⟩

/-- C16 (as stated, fails): with the entry `"a"` holding a null handler pointer,
the guard of the entry `"b"` is not evaluated at all, although `"b"` does not
start with `"_"`; and on an event whose static type is a derived class, the
guard of the registered entry `"b_handler"` is not evaluated at all. -/
theorem guard_evaluated_once_counterexample :
    (string.startswith "b" "_" = false ∧
      ((registerAll [("a", none), ("b", some (accepting "fb"))]).handlers
        (EventType.base Category.message)).find "b" = some (some (accepting "fb")) ∧
      guardsOf "b" (run_handlers (EventType.base Category.message) (5 : Nat)
        (registerAll [("a", none), ("b", some (accepting "fb"))])).1.log = []) ∧
    (string.startswith "b_handler" "_" = false ∧
      (exampleRegistry.handlers (EventType.base Category.message)).find "b_handler" =
        some (some (accepting "fb")) ∧
      derefSafe (exampleRegistry.handlers (EventType.base Category.message)).entries = true ∧
      guardsOf "b_handler" (run_handlers groupMessageEvent (5 : Nat)
        exampleRegistry).1.log = []) :=
  ⟨⟨by decide, rfl, by decide⟩, ⟨by decide, rfl, by decide, by decide⟩⟩

/-- C16 (amended): in one `run_handlers` call on an event whose static type is
the base event class of its category and that dereferences no null handler
pointer, the guard of every entry whose name does not start with `"_"` and
whose handler has a guard is evaluated exactly once, on the dispatched event,
also when the callback of the entry is null; in every call, on an event of any
static type, guards are evaluated in ascending name order, the guard of an
entry before the callback of that entry, and the guard of an entry whose name
starts with `"_"` is never evaluated. -/
theorem guard_evaluated_once (w : _HandlerMapWrapper Ev F) (c : Category)
    (d : Option String) (event : Ev c) :
    (∀ name h g, (w.handlers (EventType.base c)).find name = some (some h) →
      h._condition = some g → string.startswith name "_" = false →
      derefSafe (w.handlers (EventType.base c)).entries = true →
      guardsOf name (run_handlers (EventType.base c) event w).1.log =
        [(name, Effect.guard event)]) ∧
    (∀ (i j : Nat) (a b : String) (ea eb : Ev c),
      (run_handlers (EventType.mk c d) event w).1.log[i]? = some (a, Effect.guard ea) →
      (run_handlers (EventType.mk c d) event w).1.log[j]? = some (b, Effect.guard eb) →
      a.data < b.data → i < j) ∧
    (∀ (i j : Nat) (name : String) (e₁ : Ev c) (f : F) (s : Session (Ev c)),
      (run_handlers (EventType.mk c d) event w).1.log[i]? = some (name, Effect.guard e₁) →
      (run_handlers (EventType.mk c d) event w).1.log[j]? = some (name, Effect.call f s) →
      i < j) ∧
    (∀ (name : String) (e₁ : Ev c), string.startswith name "_" = true →
      (name, Effect.guard e₁) ∉ (run_handlers (EventType.mk c d) event w).1.log) := by
  have hlog : (run_handlers (EventType.mk c d) event w).1.log =
      (run_entries event (w.handlers (EventType.mk c d)).entries).log := rfl
  have hp := run_entries_log_precedes event (w.handlers (EventType.mk c d)).entries
    (w.handlers (EventType.mk c d)).sorted
  rw [hlog]
  refine ⟨?_, ?_, ?_, ?_⟩
  · intro name h g hfind hg hres hsafe
    have h1 := filter_label_run_entries event (w.handlers (EventType.base c)).entries
      (w.handlers (EventType.base c)).sorted name h hfind hres hsafe
    have h2 : guardsOf name (run_handlers (EventType.base c) event w).1.log =
        ((run_entries event (w.handlers (EventType.base c)).entries).log.filter
          (fun a => decide (a.1 = name))).filter (fun a => !isCall a) := by
      simp [guardsOf, run_handlers, List.filter_filter]
    rw [h2, h1]
    exact entryEffects_guards event name h g hg
  · intro i j a b ea eb hi hj hab
    refine index_lt_of_precedes _ hp i j _ _ hi hj ?_ ?_
    · rintro (h | ⟨-, -, h⟩)
      · exact lt_asymm hab h
      · simp [isCall] at h
    · intro h
      rw [(Prod.mk.inj h).1] at hab
      exact lt_irrefl _ hab
  · intro i j name e₁ f s hi hj
    refine index_lt_of_precedes _ hp i j _ _ hi hj ?_ ?_
    · rintro (h | ⟨-, h, -⟩)
      · exact lt_irrefl _ h
      · simp [isCall] at h
    · intro h
      cases (Prod.mk.inj h).2
  · intro name e₁ hres hmem
    have h := (run_entries_label event (w.handlers (EventType.mk c d)).entries _ hmem).1
    simp only at h
    rw [hres] at h
    cases h

/-- C16 (amended), at a registry whose entry `"n"` has an accepting guard and a
null callback. -/
theorem guard_evaluated_once_witness :
    ((registerAll [("n", some noCallback)]).handlers
      (EventType.base Category.message)).find "n" = some (some noCallback) ∧
    noCallback._condition = some (fun _ => true) ∧
    string.startswith "n" "_" = false ∧
    derefSafe ((registerAll [("n", some noCallback)]).handlers
      (EventType.base Category.message)).entries = true ∧
    guardsOf "n" (run_handlers (EventType.base Category.message) (5 : Nat)
      (registerAll [("n", some noCallback)])).1.log = [("n", Effect.guard (5 : Nat))] :=
  ⟨rfl, rfl, by decide, by decide,
    (guard_evaluated_once (registerAll [("n", some noCallback)]) Category.message none
      (5 : Nat)).1 "n" noCallback (fun _ => true) rfl rfl (by decide) (by decide)⟩

/-- C17: the name filter is exactly "the first character is an underscore": an
entry is skipped by `run_handlers` on account of its name if and only if the
name is non-empty and its first character is `'_'`; so the empty name and
`"a_handler"` are dispatched and the name `"_"` is not. -/
theorem name_filter_first_char :
    (∀ name : String, string.startswith name "_" = true ↔ name.data.head? = some '_') ∧
    (∀ (E F : Type) (event : E) (name : String) (v : Option (Handler E F))
      (rest : List (Entry E F)),
      run_entries event ((name, v) :: rest) =
        if name.data.head? = some '_' then run_entries event rest
        else
          match v with
          | none => ⟨[], true⟩
          | some h => ⟨entryEffects event name h ++ (run_entries event rest).log,
              (run_entries event rest).fault⟩) ∧
    (string.startswith "" "_" = false ∧ string.startswith "a_handler" "_" = false ∧
      string.startswith "_" "_" = true) ∧
    (callsOf "" (run_handlers (EventType.base Category.message) (5 : Nat)
        (registerAll [("", some (accepting "f"))])).1.log =
        [("", Effect.call "f" (Session.mk (5 : Nat)))] ∧
      callsOf "a_handler" (run_handlers (EventType.base Category.message) (5 : Nat)
        (registerAll [("a_handler", some (accepting "f"))])).1.log =
        [("a_handler", Effect.call "f" (Session.mk (5 : Nat)))] ∧
      callsOf "_" (run_handlers (EventType.base Category.message) (5 : Nat)
        (registerAll [("_", some (accepting "f"))])).1.log = []) := by
  refine ⟨startswith_underscore, ?_, by decide, by decide⟩
  intro E F event name v rest
  by_cases hh : name.data.head? = some '_'
  · rw [if_pos hh]
    exact run_entries_reserved event name v rest ((startswith_underscore name).2 hh)
  · rw [if_neg hh]
    have hr : string.startswith name "_" = false := by
      cases hs : string.startswith name "_" with
      | false => rfl
      | true => exact absurd ((startswith_underscore name).1 hs) hh
    cases v with
    | none => exact run_entries_null event name rest hr
    | some h => exact run_entries_some event name h rest hr

/-- C17, at the names `"_hidden"` and `"a_handler"`. -/
theorem name_filter_first_char_witness :
    ("_hidden".data.head? = some '_' ∧ string.startswith "_hidden" "_" = true) ∧
    (string.startswith "a_handler" "_" = false ∧ "a_handler".data.head? ≠ some '_') :=
  ⟨⟨by decide, (name_filter_first_char.1 "_hidden").2 (by decide)⟩,
    ⟨by decide, fun h => absurd ((name_filter_first_char.1 "a_handler").2 h) (by decide)⟩⟩

end Claims

end dolores
